import Mathlib

/-!
Verification development for the raycast-gemini-ai-translate extension.

The heart of the repository is the TTS playback controller in the
MsEdgeTTS service class (static shared state, preemptive cancellation,
ownership tokens).  We give a shallow embedding of:

* the text normalization pipeline `cleanText` (regex substitutions are
  modelled as explicit character-list scans, in the exact order of the
  source chain of String.replace calls);
* the debounce gate of `performTTS` in the TTS command component;
* the retry loops of `GeminiClient.generateContent` and the fail-fast
  `generateContentStream`;
* the partial-failure-tolerant batch loop `speakFromFiles`;
* an interleaving machine for the static `MsEdgeTTS.speak` pipeline
  (prelude cancellation, ownership claim, stream registration, write,
  playback, close handler, the two finally blocks and the catch
  classifier), with one schedulable atomic step per synchronous segment
  between `await` points of the source.
-/

/-! ### JavaScript-style whitespace and string helpers -/

/-- The character class matched by the JavaScript regex `\s` (and trimmed
by `String.prototype.trim`): space, tab, LF, CR, VT, FF and the standard
Unicode space separators. -/
def jsWs (c : Char) : Bool :=
  c = ' ' || c = '\t' || c = '\n' || c = '\r' || c.val = 11 || c.val = 12 ||
  c.val = 0xa0 || c.val = 0x1680 || (0x2000 ≤ c.val && c.val ≤ 0x200a) ||
  c.val = 0x2028 || c.val = 0x2029 || c.val = 0x202f || c.val = 0x205f ||
  c.val = 0x3000 || c.val = 0xfeff

/-- Does `l` start with `pat`? -/
def startsWithL : List Char → List Char → Bool
  | _, [] => true
  | [], _ :: _ => false
  | c :: cs, d :: ds => c = d && startsWithL cs ds

/-- Does `hay` contain `pat` as a contiguous run (JS `String.includes`)? -/
def containsL (hay pat : List Char) : Bool :=
  match hay with
  | [] => pat.isEmpty
  | _ :: t => startsWithL hay pat || containsL t pat

/-- JS `a.includes(b)` on strings. -/
def strContains (hay pat : String) : Bool :=
  containsL hay.data pat.data

/-! ### The cleanText pipeline (MsEdgeTTS.cleanText)

Source order of the replace chain:
1. `replace(/\r/g, "")`
2. `replace(/https?:\/\/[^\s]+/g, "网址")`
3. `replace(/\n+/g, "。")`
4. `replace(/\s+/g, " ")`
5. `replace(/，+/g, "，")`
6. `replace(/。+/g, "。")`
7. `trim()`
-/

/-- Step 1: remove every carriage return. -/
def stripCR (l : List Char) : List Char :=
  l.filter (fun c => !(c = '\r'))

/-- Step 2, scanning worker for `replace(/https?:\/\/[^\s]+/g, "网址")`.
The flag records whether the scan is inside the non-whitespace body of
a matched URL (whose characters are dropped).  In scan mode, a match
can only start at an `h`; when a scheme is followed by whitespace the
regex fails there and no match can start inside the scheme's remaining
characters (none of them is `h`), so the scan resumes at the character
after the scheme. -/
def urlScan : Bool → List Char → List Char
  | _, [] => []
  | true, c :: cs => if jsWs c then c :: urlScan false cs else urlScan true cs
  | false, 'h' :: 't' :: 't' :: 'p' :: ':' :: '/' :: '/' :: r :: rs =>
    if jsWs r then
      'h' :: 't' :: 't' :: 'p' :: ':' :: '/' :: '/' :: urlScan false (r :: rs)
    else
      '网' :: '址' :: urlScan true (r :: rs)
  | false, 'h' :: 't' :: 't' :: 'p' :: 's' :: ':' :: '/' :: '/' :: r :: rs =>
    if jsWs r then
      'h' :: 't' :: 't' :: 'p' :: 's' :: ':' :: '/' :: '/' :: urlScan false (r :: rs)
    else
      '网' :: '址' :: urlScan true (r :: rs)
  | false, c :: cs => c :: urlScan false cs

/-- Step 2: leftmost greedy global replacement of
`https?:\/\/[^\s]+` by the placeholder `网址`. -/
def urlReplace (l : List Char) : List Char :=
  urlScan false l

/-- One pass of a JS global replace of `X+` by a single replacement
character: `inRun` records whether the previous character was part of a
run matching `p`. -/
def collapseAux (p : Char → Bool) (r : Char) : Bool → List Char → List Char
  | _, [] => []
  | inRun, c :: cs =>
    if p c then
      if inRun then collapseAux p r true cs
      else r :: collapseAux p r true cs
    else c :: collapseAux p r false cs

/-- Replace every maximal nonempty run of characters matching `p` by the
single character `r` (JS `replace(/X+/g, "r")`). -/
def collapseRun (p : Char → Bool) (r : Char) (l : List Char) : List Char :=
  collapseAux p r false l

/-- Drop matching characters from the end of the list (helper for
`trim`). -/
def trimRight (p : Char → Bool) : List Char → List Char
  | [] => []
  | c :: cs =>
    let rest := trimRight p cs
    if rest.isEmpty && p c then [] else c :: rest

/-- JS `String.prototype.trim` on character lists. -/
def trimL (l : List Char) : List Char :=
  trimRight jsWs (l.dropWhile jsWs)

/-- The full `MsEdgeTTS.cleanText` pipeline on character lists. -/
def cleanTextL (l : List Char) : List Char :=
  trimL
    (collapseRun (fun c => c = '。') '。'
      (collapseRun (fun c => c = '，') '，'
        (collapseRun jsWs ' '
          (collapseRun (fun c => c = '\n') '。'
            (urlReplace (stripCR l))))))

/-- `MsEdgeTTS.cleanText` on strings. -/
def cleanText (s : String) : String :=
  ⟨cleanTextL s.data⟩

/-- JS `String.prototype.trim` on strings (used by the static speak entry
for `text.trim()`). -/
def jsTrim (s : String) : String :=
  ⟨trimL s.data⟩

/-- No two adjacent characters of the list both match `p` (used to
state that a collapse pass leaves no two-character run behind). -/
def chainOk (p : Char → Bool) : List Char → Bool
  | c1 :: c2 :: rest => (!(p c1 && p c2)) && chainOk p (c2 :: rest)
  | _ => true

/-! ### Debounce gate of performTTS (src/tts.tsx)

`performTTS` first rejects empty text (error page, no state change),
then drops the call if `Date.now() - lastCallTime < 500`; only a call
that passes both checks updates `lastCallTime` and invokes
`MsEdgeTTS.speak`. -/

/-- Outcome of one `performTTS` invocation. -/
inductive PerformOutcome where
  | emptyErr   -- empty text: error page shown, no playback, no debounce update
  | skipped    -- dropped by the debounce window: no effect at all
  | played     -- passed the gate: lastCallTime updated, MsEdgeTTS.speak invoked
  deriving DecidableEq, Repr

/-- The debounce window of `performTTS` (DEBOUNCE_DELAY). -/
def debounceDelay : Nat := 500

/-- One `performTTS` invocation at time `now` with debounce state
`lastCallTime`; returns the outcome and the new `lastCallTime`. -/
def performTTSStep (lastCallTime now : Nat) (text : String) : PerformOutcome × Nat :=
  if jsTrim text = "" then (.emptyErr, lastCallTime)
  else if now - lastCallTime < debounceDelay then (.skipped, lastCallTime)
  else (.played, now)

/-- A sequence of `performTTS` invocations (time, text), threading the
debounce state; returns the outcome of each invocation. -/
def runPerformTTS (lastCallTime : Nat) : List (Nat × String) → List PerformOutcome
  | [] => []
  | (now, text) :: rest =>
    let (o, st) := performTTSStep lastCallTime now text
    o :: runPerformTTS st rest

/-! ### Retry loops of GeminiClient (generateContent vs generateContentStream)

`generateContent` loops `attempt = 1..maxRetries`, sleeping
`1000 * attempt` ms between a failed non-final attempt and the next one,
and finally rethrows the last error.  `maxRetries` comes from
`options.maxRetries || DEFAULT_MAX_RETRIES` (JS `||`: 0 and undefined
both fall back to 3).  `generateContentStream` performs exactly one
attempt and rethrows its error. -/

/-- Outcome of an attempt oracle: attempt number to result. -/
def GenOracle := Nat → Except String String

/-- Result of a generate call: outcome, attempts actually made, and the
backoff waits (milliseconds) slept between attempts, in order. -/
structure GenRun where
  outcome : Except String String
  attempts : Nat
  waits : List Nat
  deriving Repr

/-- `options.maxRetries || DEFAULT_MAX_RETRIES` (JS falsy fallback). -/
def resolveMaxRetries : Option Nat → Nat
  | none => 3
  | some 0 => 3
  | some (n + 1) => n + 1

/-- The retry loop of `generateContent`, with `remaining` attempts left
(at least one). -/
def genLoop (o : GenOracle) : Nat → Nat → GenRun
  | attempt, 0 => ⟨.error "", attempt, []⟩   -- unreachable: remaining ≥ 1
  | attempt, 1 =>
    match o attempt with
    | .ok s => ⟨.ok s, attempt, []⟩
    | .error e => ⟨.error e, attempt, []⟩
  | attempt, rem + 2 =>
    match o attempt with
    | .ok s => ⟨.ok s, attempt, []⟩
    | .error _ =>
      let r := genLoop o (attempt + 1) (rem + 1)
      ⟨r.outcome, r.attempts, 1000 * attempt :: r.waits⟩

/-- `GeminiClient.generateContent`: retry loop with linear backoff,
surfacing the last error. -/
def generateContentModel (o : GenOracle) (maxRetries : Option Nat) : GenRun :=
  genLoop o 1 (resolveMaxRetries maxRetries)

/-- `GeminiClient.generateContentStream`: a single attempt, rethrowing
the first error, with no internal retry and no backoff waits. -/
def generateContentStreamModel (o : GenOracle) : GenRun :=
  match o 1 with
  | .ok s => ⟨.ok s, 1, []⟩
  | .error e => ⟨.error e, 1, []⟩

/-! ### Batch playback loop speakFromFiles

The `for` loop wraps each `speakFromFile` call in its own try/catch that
only logs the error and continues; therefore the loop body never throws,
the outer catch is not reached from a per-file failure, and every file
in the list is attempted in order. -/

/-- Per-file trace entry of `speakFromFiles`: index attempted and whether
that file's playback succeeded. -/
def batchGo (i : Nat) : List (Except String Unit) → List (Nat × Bool)
  | [] => []
  | r :: rest => (i, match r with | .ok _ => true | .error _ => false) :: batchGo (i + 1) rest

/-- `MsEdgeTTS.speakFromFiles` over the per-file outcomes: the inner
try/catch swallows each file's failure, so the batch always completes
normally with a full trace (the outer catch would only rethrow an error
escaping the loop, and none does). -/
def speakFromFilesModel (outcomes : List (Except String Unit)) :
    Except String (List (Nat × Bool)) :=
  .ok (batchGo 0 outcomes)

/-! ### The static MsEdgeTTS.speak pipeline as an interleaving machine

The static class state of `MsEdgeTTS` is a record; each static `speak`
call is a coroutine whose program counter marks the `await` suspension
points of the source.  One machine step runs one synchronous segment of
one call; a schedule is the list of which call runs next.  This mirrors
the single-threaded JS event loop: code between two `await`s is atomic,
and the continuations of distinct pending calls interleave in any
order.  The close event of a killed player still fires and the close
handler calls `resolve()` unconditionally (source: `player.on("close",
... resolve())`), which the machine reproduces.

Write/playback outcomes that depend on the outside world (network,
file system, afplay) are recorded per call: `writePlan = none` means
the temp-file write finishes, `some e` means the write pipeline fails
with message `e`; `playPlan` likewise for the player process.  An empty
message models a thrown value without a `message` property (the JS
side then falls back to the string "Unknown error"). -/

/-- Mirror of the TTSResult record (duration omitted: wall-clock time
is not modelled). -/
structure TTSResultM where
  success : Bool
  cancelled : Option Bool
  message : String
  deriving DecidableEq, Repr

/-- Where a call resumes after `cancelActiveStream` finishes (the three
await sites of `cancelActiveStream` in the source). -/
inductive CasCont where
  | preludeDelay     -- static speak prelude: next comes the 50ms settle delay
  | lockTimeout      -- nativeStreamSpeak: waitForStreamLock timed out
  | existingStream   -- nativeStreamSpeak: an older active stream was registered
  deriving DecidableEq, Repr

/-- Program counter of one static `speak` call, one constructor per
`await` suspension point of the source pipeline. -/
inductive PC where
  | start                  -- not yet run: prelude cancellation checks
  | casRace (k : CasCont)  -- inside cancelActiveStream, awaiting the 250ms race
  | settleDelay            -- prelude done, awaiting the 50ms settle delay
  | lockWait               -- nativeStreamSpeak, awaiting the stream lock
  | awaitMeta              -- awaiting tts.setMetadata
  | awaitWrite             -- awaiting the temp-file write (abort listener armed)
  | awaitClose             -- player spawned, awaiting its close/error event
  | postPlay               -- playback promise settled, IIFE tail pending
  | iifeDone               -- stream-creation promise settled, finally pending
  | staticDone             -- nativeStreamSpeak returned/threw, static catch/finally pending
  | done                   -- call finished, result recorded
  deriving DecidableEq, Repr

/-- One static `speak` call: its generated ids, input, environment
plans, and coroutine state. -/
structure Call where
  rid : Nat                     -- requestId (generateStreamId at entry)
  sid : Nat                     -- streamId (generateStreamId in nativeStreamSpeak)
  pid : Nat                     -- pid of the afplay process this call would spawn
  text : String
  writePlan : Option String     -- none = write finishes; some e = write error e
  playPlan : Option String      -- none = close event; some e = error event e
  pc : PC := .start
  err : Option String := none   -- exception propagating through the call
  writeAborted : Bool := false  -- its write promise was rejected by the abort signal
  ttsClosed : Bool := false     -- its EdgeTTS instance was closed from outside
  result : Option TTSResultM := none
  deriving DecidableEq, Repr

/-- The static fields of the MsEdgeTTS class.  `claimLog` is a ghost
field recording the order in which calls claimed `activeRequestId`. -/
structure Shared where
  isPlaying : Bool := false
  currentPlayingText : String := ""
  currentPlayer : Option Nat := none
  currentTempFile : String := ""
  activeRequestId : Option Nat := none
  activeStreamId : Option Nat := none
  activeEdgeTTS : Option Nat := none
  streamLock : Bool := false
  abortCtrl : Option Nat := none       -- streamAbortController, tagged by creator sid
  creationPromise : Option Nat := none -- streamCreationPromise, tagged by creator sid
  claimLog : List Nat := []
  deriving DecidableEq, Repr

/-- Whole machine state: shared statics plus the per-call coroutines. -/
structure Config where
  sh : Shared
  calls : List Call
  deriving DecidableEq, Repr

/-- `MsEdgeTTS.cancelCurrentPlayback`: releases the ownership token,
force-kills the player if any, forgets the temp file, and resets the
playing flags.  All error paths inside are caught and logged, so the
model is a total function. -/
def cancelCurrentPlayback (sh : Shared) : Shared :=
  { sh with
    activeRequestId := none
    currentPlayer := none
    currentTempFile := ""
    isPlaying := false
    currentPlayingText := "" }

/-- Synchronous front of `cancelActiveStream` (steps 1-3): abort the
stream abort-controller, close the active EdgeTTS instance, and kill
the player if one is playing.  Shared-state part. -/
def casFront (sh : Shared) : Shared :=
  let sh1 := { sh with abortCtrl := none, activeEdgeTTS := none }
  if sh1.isPlaying || sh1.currentPlayer.isSome then cancelCurrentPlayback sh1 else sh1

/-- Effect of `cancelActiveStream` steps 1-2 on the other calls: a call
whose write promise has its abort listener armed is rejected when the
shared controller it registered is aborted; a call whose EdgeTTS
instance is the registered one has its connection closed. -/
def casVictim (sh : Shared) (c : Call) : Call :=
  let c1 := if sh.abortCtrl = some c.sid && c.pc = PC.awaitWrite then
    { c with writeAborted := true } else c
  if sh.activeEdgeTTS = some c1.sid then { c1 with ttsClosed := true } else c1

/-- Tail of `cancelActiveStream` (after the bounded race, or at once if
no stream-creation promise is pending): forget the promise, clear the
active stream id, and release the stream lock (finally block). -/
def casFinish (sh : Shared) : Shared :=
  { sh with creationPromise := none, activeStreamId := none, streamLock := false }

/-- The guarded finally block of `nativeStreamSpeak`: only the call
whose stream is still registered clears the stream fields; the stream
lock is released unconditionally. -/
def nFinally (sid : Nat) (sh : Shared) : Shared :=
  let sh1 :=
    if sh.activeStreamId = some sid then
      { sh with activeStreamId := none, activeEdgeTTS := none,
                abortCtrl := none, creationPromise := none }
    else sh
  { sh1 with streamLock := false }

/-- The guarded finally block of the static `speak`: only the call that
still owns `activeRequestId` releases it and clears the playing text. -/
def staticFinally (rid : Nat) (sh : Shared) : Shared :=
  if sh.activeRequestId = some rid then
    { sh with activeRequestId := none, currentPlayingText := "" }
  else sh

/-- The catch classifier of the static `speak`: an error is reported as
a cancellation if a newer request owns the state or if the message is
abort-shaped (or the fallback "Unknown error"). -/
def classifyCatch (rid : Nat) (sh : Shared) (e : String) : TTSResultM :=
  let msg := if e = "" then "Unknown error" else e
  let wasCancelledByNewer := sh.activeRequestId ≠ some rid
  let isCancellationError :=
    strContains msg "Connect Error" || strContains msg "Stream aborted" ||
    strContains msg "aborted" || msg = "Unknown error"
  if wasCancelledByNewer || isCancellationError then
    ⟨false, some true, "播放被新请求取消"⟩
  else
    ⟨false, some false, "播放失败: " ++ msg⟩

/-- Result of one synchronous segment: new shared state, new state of
the running call, and the effect applied to every other call (identity
except when `cancelActiveStream` ran in this segment). -/
structure SegOut where
  sh : Shared
  c : Call
  eff : Call → Call

/-- nativeStreamSpeak from `activeStreamId = streamId` on: register the
stream, normalize the text (an empty result throws 文本为空 straight into
catch/finally of the same segment), create the EdgeTTS instance and the
abort controller, and suspend at `setMetadata`. -/
def seg1Own (sh : Shared) (c : Call) : SegOut :=
  let sh := { sh with activeStreamId := some c.sid }
  if cleanTextL c.text.data = [] then
    ⟨nFinally c.sid sh, { c with err := some "文本为空", pc := .staticDone }, id⟩
  else
    ⟨{ sh with activeEdgeTTS := some c.sid, abortCtrl := some c.sid },
     { c with pc := .awaitMeta, writeAborted := false, ttsClosed := false }, id⟩

/-- nativeStreamSpeak from `streamLock = true` on: take the lock, cancel
a still-registered older stream (suspending at the bounded race if its
creation promise is pending), then register our own stream. -/
def seg1Lock (sh : Shared) (c : Call) : SegOut :=
  let sh := { sh with streamLock := true }
  if sh.activeStreamId.isSome && sh.activeStreamId ≠ some c.sid then
    -- await cancelActiveStream() : early return is impossible here
    -- because an active stream id exists.
    let eff := casVictim sh
    let sh1 := casFront sh
    if sh1.creationPromise.isSome then
      ⟨sh1, { c with pc := .casRace .existingStream }, eff⟩
    else
      let out := seg1Own (casFinish sh1) c
      ⟨out.sh, out.c, eff⟩
  else
    seg1Own sh c

/-- nativeStreamSpeak entry: if the stream lock is held, suspend in
`waitForStreamLock`; otherwise proceed. -/
def seg1Entry (sh : Shared) (c : Call) : SegOut :=
  if sh.streamLock then ⟨sh, { c with pc := .lockWait }, id⟩
  else seg1Lock sh c

/-- Claim ownership (static speak after the prelude): set
`activeRequestId` and the playing text, then call `nativeStreamSpeak`
synchronously (same segment, voice and mode glue omitted). -/
def claimAndSeg1 (sh : Shared) (c : Call) : SegOut :=
  seg1Entry
    { sh with activeRequestId := some c.rid,
              currentPlayingText := jsTrim c.text,
              claimLog := sh.claimLog ++ [c.rid] } c

/-- First segment of a static `speak` call: the FIX 2 prelude.  Compute
the three cancellation flags; if any is set, kill the player and/or run
`cancelActiveStream`, then suspend for the 50ms settle delay; if none
is set, fall straight through to claiming ownership (no `await` in
between). -/
def segStart (sh : Shared) (c : Call) : SegOut :=
  let needsCancelPlayer := sh.currentPlayer.isSome
  let needsCancelStream := sh.activeStreamId.isSome && sh.activeStreamId ≠ some c.rid
  let isOwnedByOther := sh.activeRequestId.isSome && sh.activeRequestId ≠ some c.rid
  if needsCancelPlayer || needsCancelStream || isOwnedByOther then
    let sh1 := if needsCancelPlayer then cancelCurrentPlayback sh else sh
    if needsCancelStream || isOwnedByOther then
      -- await cancelActiveStream()
      if sh1.activeStreamId = none && sh1.isPlaying = false then
        -- early return inside cancelActiveStream (nothing to cancel)
        ⟨sh1, { c with pc := .settleDelay }, id⟩
      else
        let eff := casVictim sh1
        let sh2 := casFront sh1
        if sh2.creationPromise.isSome then
          ⟨sh2, { c with pc := .casRace .preludeDelay }, eff⟩
        else
          ⟨casFinish sh2, { c with pc := .settleDelay }, eff⟩
    else
      ⟨sh1, { c with pc := .settleDelay }, id⟩
  else
    claimAndSeg1 sh c

/-- Resume after the bounded 250ms race inside `cancelActiveStream`:
clear the creation promise, the stream id, release the lock, and
continue at the recorded continuation. -/
def segCasRace (k : CasCont) (sh : Shared) (c : Call) : SegOut :=
  let sh := casFinish sh
  match k with
  | .preludeDelay => ⟨sh, { c with pc := .settleDelay }, id⟩
  | .lockTimeout => seg1Lock sh c
  | .existingStream => seg1Own sh c

/-- Resume after the 50ms settle delay: claim ownership and enter
`nativeStreamSpeak`. -/
def segSettleDelay (sh : Shared) (c : Call) : SegOut :=
  claimAndSeg1 sh c

/-- Resume from `waitForStreamLock`: if the lock was released, proceed;
otherwise the bounded wait timed out and `cancelActiveStream` is forced
before proceeding. -/
def segLockWait (sh : Shared) (c : Call) : SegOut :=
  if sh.streamLock then
    -- timeout path: await cancelActiveStream(), then proceed
    if sh.activeStreamId = none && sh.isPlaying = false then
      seg1Lock sh c
    else
      let eff := casVictim sh
      let sh1 := casFront sh
      if sh1.creationPromise.isSome then
        ⟨sh1, { c with pc := .casRace .lockTimeout }, eff⟩
      else
        let out := seg1Lock (casFinish sh1) c
        ⟨out.sh, out.c, eff⟩
  else
    seg1Lock sh c

/-- Resume after `setMetadata`: re-check stream ownership (a cancelled
call returns cleanly through its finally), then start the
stream-creation IIFE: `toStream` on a closed connection rejects, else
the write begins and the abort listener is armed. -/
def segAwaitMeta (sh : Shared) (c : Call) : SegOut :=
  if sh.activeStreamId ≠ some c.sid then
    ⟨nFinally c.sid sh, { c with err := none, pc := .staticDone }, id⟩
  else
    let sh := { sh with creationPromise := some c.sid }
    if c.ttsClosed then
      ⟨sh, { c with err := some "Connect Error", pc := .iifeDone }, id⟩
    else
      ⟨sh, { c with pc := .awaitWrite }, id⟩

/-- Resume when the write promise settles: rejected by the abort signal,
rejected by an I/O error, or resolved — in which case ownership is
re-checked immediately before playback and, if it still holds, the
player is spawned in the same synchronous segment (isPlaying set,
process handle and temp file registered). -/
def segAwaitWrite (sh : Shared) (c : Call) : SegOut :=
  if c.writeAborted then
    ⟨sh, { c with err := some "Stream aborted", pc := .iifeDone }, id⟩
  else
    match c.writePlan with
    | some e => ⟨sh, { c with err := some e, pc := .iifeDone }, id⟩
    | none =>
      if sh.activeStreamId ≠ some c.sid then
        ⟨sh, { c with err := none, pc := .iifeDone }, id⟩
      else
        ⟨{ sh with isPlaying := true, currentPlayer := some c.pid,
                   currentTempFile := "native_" ++ toString c.sid ++ ".mp3" },
         { c with pc := .awaitClose }, id⟩

/-- The player's close/error event: the handler resets the shared
playing state only if this player is still the registered one, then
settles the playback promise — `resolve()` runs even for a killed
process (close event with a signal), `reject(error)` on an error
event. -/
def segAwaitClose (sh : Shared) (c : Call) : SegOut :=
  let sh :=
    if sh.currentPlayer = some c.pid then
      { sh with isPlaying := false, currentPlayer := none, currentTempFile := "" }
    else sh
  match c.playPlan with
  | none => ⟨sh, { c with err := none, pc := .postPlay }, id⟩
  | some e => ⟨sh, { c with err := some e, pc := .postPlay }, id⟩

/-- IIFE tail after the playback promise settles (log line, catch
rethrow); the stream-creation promise then settles. -/
def segPostPlay (sh : Shared) (c : Call) : SegOut :=
  ⟨sh, { c with pc := .iifeDone }, id⟩

/-- nativeStreamSpeak resumes after `await streamCreationPromise`: the
catch rethrows every error, the finally cleans the local temp file and
runs the guarded shared-state cleanup. -/
def segIifeDone (sh : Shared) (c : Call) : SegOut :=
  ⟨nFinally c.sid sh, { c with pc := .staticDone }, id⟩

/-- The static `speak` resumes: success result, or the catch classifier
for an error; then its guarded finally. -/
def segStaticDone (sh : Shared) (c : Call) : SegOut :=
  let res :=
    match c.err with
    | none => (⟨true, none, "播放完成"⟩ : TTSResultM)
    | some e => classifyCatch c.rid sh e
  ⟨staticFinally c.rid sh, { c with result := some res, pc := .done }, id⟩

/-- Dispatch one synchronous segment of call `c`. -/
def segDispatch (sh : Shared) (c : Call) : SegOut :=
  match c.pc with
  | .start => segStart sh c
  | .casRace k => segCasRace k sh c
  | .settleDelay => segSettleDelay sh c
  | .lockWait => segLockWait sh c
  | .awaitMeta => segAwaitMeta sh c
  | .awaitWrite => segAwaitWrite sh c
  | .awaitClose => segAwaitClose sh c
  | .postPlay => segPostPlay sh c
  | .iifeDone => segIifeDone sh c
  | .staticDone => segStaticDone sh c
  | .done => ⟨sh, c, id⟩

/-- One machine step: run the pending segment of call `i` (no-op on an
invalid index or a finished call). -/
def step (cfg : Config) (i : Nat) : Config :=
  match cfg.calls[i]? with
  | none => cfg
  | some c =>
    if c.pc = .done then cfg
    else
      let out := segDispatch cfg.sh c
      ⟨out.sh, (cfg.calls.map out.eff).set i out.c⟩

/-- Run a schedule (list of call indices). -/
def runTTS (cfg : Config) : List Nat → Config
  | [] => cfg
  | i :: rest => runTTS (step cfg i) rest

/-- A fresh call about `text` with the given ids and environment plans. -/
def mkCall (rid sid pid : Nat) (text : String)
    (writePlan playPlan : Option String) : Call :=
  { rid := rid, sid := sid, pid := pid, text := text,
    writePlan := writePlan, playPlan := playPlan }

/-- Initial machine state: idle statics, every call at its entry. -/
def initConfig (cs : List Call) : Config :=
  ⟨{}, cs⟩

/-- The cleanup region of the pipeline: once a call's stream-creation
promise has settled, only the two finally blocks and the result
assignment remain. -/
def cleanupPC (pc : PC) : Prop :=
  pc = .iifeDone ∨ pc = .staticDone ∨ pc = .done

/-- Pipeline positions at which a call's registered stream may still be
the active one (between registering `activeStreamId` and its
nativeStreamSpeak finally). -/
def inFlight (pc : PC) : Prop :=
  pc = .awaitMeta ∨ pc = .awaitWrite ∨ pc = .awaitClose ∨
  pc = .postPlay ∨ pc = .iifeDone

/-- A registered player handle always belongs to a call that is awaiting
its close/error event. -/
def PlayerInv (cfg : Config) : Prop :=
  ∀ p : Nat, cfg.sh.currentPlayer = some p →
    ∃ (j : Nat) (c : Call), cfg.calls[j]? = some c ∧ c.pid = p ∧ c.pc = PC.awaitClose

/-- A registered stream id always belongs to a call that is in flight. -/
def StreamInv (cfg : Config) : Prop :=
  ∀ s : Nat, cfg.sh.activeStreamId = some s →
    ∃ (j : Nat) (c : Call), cfg.calls[j]? = some c ∧ c.sid = s ∧ inFlight c.pc

/-! ### Helper lemmas -/

theorem casVictim_pc (sh : Shared) (u : Call) : (casVictim sh u).pc = u.pc := by
  simp only [casVictim]
  split <;> split <;> rfl

theorem casVictim_result (sh : Shared) (u : Call) : (casVictim sh u).result = u.result := by
  simp only [casVictim]
  split <;> split <;> rfl

theorem casVictim_ids (sh : Shared) (u : Call) :
    (casVictim sh u).rid = u.rid ∧ (casVictim sh u).sid = u.sid ∧
    (casVictim sh u).pid = u.pid := by
  simp only [casVictim]
  split <;> split <;> exact ⟨rfl, rfl, rfl⟩

/-- Every segment's cross-call effect is the identity or a
`cancelActiveStream` victim update. -/
theorem segDispatch_eff (sh : Shared) (c : Call) :
    (segDispatch sh c).eff = id ∨ ∃ s, (segDispatch sh c).eff = casVictim s := by
  rcases c with ⟨rid, sid, pid, text, wp, pp, pc, err, wa, tc, res⟩
  cases pc <;>
    simp only [segDispatch, segStart, segCasRace, segSettleDelay, segLockWait,
      segAwaitMeta, segAwaitWrite, segAwaitClose, segPostPlay, segIifeDone,
      segStaticDone, claimAndSeg1, seg1Entry, seg1Lock, seg1Own] <;>
    (repeat' split) <;>
    first
      | exact Or.inl rfl
      | exact Or.inl trivial
      | exact Or.inr ⟨_, rfl⟩

theorem segDispatch_eff_pc (sh : Shared) (c u : Call) :
    ((segDispatch sh c).eff u).pc = u.pc := by
  rcases segDispatch_eff sh c with h | ⟨s, h⟩ <;> rw [h]
  · rfl
  · exact casVictim_pc s u

theorem segDispatch_eff_result (sh : Shared) (c u : Call) :
    ((segDispatch sh c).eff u).result = u.result := by
  rcases segDispatch_eff sh c with h | ⟨s, h⟩ <;> rw [h]
  · rfl
  · exact casVictim_result s u

theorem cleanupPC_step (cfg : Config) (i j : Nat) (c : Call)
    (hj : cfg.calls[j]? = some c) (hc : cleanupPC c.pc) :
    ∃ c', (step cfg i).calls[j]? = some c' ∧ cleanupPC c'.pc := by
  rcases hi : cfg.calls[i]? with _ | ci
  · exact ⟨c, by simp only [step, hi]; exact hj, hc⟩
  · by_cases hdone : ci.pc = PC.done
    · exact ⟨c, by simp only [step, hi, hdone, if_pos]; exact hj, hc⟩
    · by_cases hij : j = i
      · subst hij
        rw [hi] at hj
        injection hj with hcc
        subst hcc
        have hlen : j < cfg.calls.length := (List.getElem?_eq_some_iff.mp hi).1
        refine ⟨(segDispatch cfg.sh ci).c, ?_, ?_⟩
        · simp only [step, hi, hdone, if_neg, List.getElem?_set_self]
          simp [hlen]
        · rcases hc with h | h | h
          · rw [show segDispatch cfg.sh ci = segIifeDone cfg.sh ci by
              unfold segDispatch; rw [h]]
            exact Or.inr (Or.inl rfl)
          · rw [show segDispatch cfg.sh ci = segStaticDone cfg.sh ci by
              unfold segDispatch; rw [h]]
            exact Or.inr (Or.inr rfl)
          · exact absurd h hdone
      · refine ⟨(segDispatch cfg.sh ci).eff c, ?_, ?_⟩
        · simp only [step, hi, hdone, if_neg, if_false]
          rw [List.getElem?_set_ne (fun h => hij h.symm)]
          rw [List.getElem?_map, hj]
          rfl
        · rw [segDispatch_eff_pc]
          exact hc

/-- Once a call has reached the cleanup region it never leaves it, over
any schedule. -/
theorem cleanupPC_run (cfg : Config) (sched : List Nat) (i : Nat) (c : Call)
    (hj : cfg.calls[i]? = some c) (hc : cleanupPC c.pc) :
    ∃ c', (runTTS cfg sched).calls[i]? = some c' ∧ cleanupPC c'.pc := by
  induction sched generalizing cfg c with
  | nil => exact ⟨c, hj, hc⟩
  | cons s rest ih =>
    obtain ⟨c', h1, h2⟩ := cleanupPC_step cfg s i c hj hc
    exact ih (step cfg s) c' h1 h2

theorem batchGo_map_fst (fs : List (Except String Unit)) :
    ∀ i, (batchGo i fs).map Prod.fst = List.range' i fs.length := by
  induction fs with
  | nil => intro i; rfl
  | cons f rest ih =>
    intro i
    simp [batchGo, List.range', ih]

/-! ### Claim theorems -/

/-- C3 (counterexample): with calls at 1000ms, 1400ms and 1800ms, the
third call starts less than 500ms after the second, yet it is NOT a
no-op — it plays — because `lastCallTime` is only updated by calls that
pass the debounce check, so the third call is compared against the
first call's start time (1800 - 1000 ≥ 500). -/
theorem claim3_counterexample :
    runPerformTTS 0 [(1000, "a"), (1400, "a"), (1800, "a")] =
      [.played, .skipped, .played] ∧ 1800 - 1400 < debounceDelay :=
  ⟨rfl, by decide⟩

/-- C3 (amended): an invocation starting within 500ms of the start time
of the last invocation that passed the debounce gate (the recorded
`lastCallTime`) is a no-op when its text is nonempty: it is skipped,
does not start playback, and leaves the debounce state unchanged (so it
neither cancels nor affects the earlier call's ownership). -/
theorem claim3_debounce (lastAccepted now : Nat) (text : String)
    (htext : ¬jsTrim text = "") (hgap : now - lastAccepted < debounceDelay) :
    performTTSStep lastAccepted now text = (.skipped, lastAccepted) := by
  simp [performTTSStep, htext, hgap]

theorem claim3_debounce_witness :
    ¬jsTrim "a" = "" ∧ 1400 - 1000 < debounceDelay ∧
      performTTSStep 1000 1400 "a" = (.skipped, 1000) :=
  ⟨by decide, by decide, claim3_debounce 1000 1400 "a" (by decide) (by decide)⟩

/-- C6: `generateContent` retries up to the default 3 attempts with
linear backoff (1000ms, then 2000ms) and surfaces the LAST error, while
`generateContentStream` performs exactly one attempt, sleeps never, and
rethrows the FIRST error. -/
theorem claim6_retry_asymmetry :
    (∀ (o : GenOracle) (e1 e2 e3 : String),
        o 1 = .error e1 → o 2 = .error e2 → o 3 = .error e3 →
        generateContentModel o none = ⟨.error e3, 3, [1000, 2000]⟩) ∧
    (∀ (o : GenOracle) (e : String), o 1 = .error e →
        generateContentStreamModel o = ⟨.error e, 1, []⟩) := by
  constructor
  · intro o e1 e2 e3 h1 h2 h3
    simp [generateContentModel, resolveMaxRetries, genLoop, h1, h2, h3]
  · intro o e h1
    simp [generateContentStreamModel, h1]

theorem claim6_retry_asymmetry_witness :
    generateContentModel (fun n => .error (toString n)) none =
      ⟨.error "3", 3, [1000, 2000]⟩ ∧
    generateContentStreamModel (fun n => .error (toString n)) = ⟨.error "1", 1, []⟩ :=
  ⟨claim6_retry_asymmetry.1 (fun n => .error (toString n)) "1" "2" "3" rfl rfl rfl,
   claim6_retry_asymmetry.2 (fun n => .error (toString n)) "1" rfl⟩

/-- C7 (counterexample): in a state where nothing is playing in the
sense of the claim (no player handle, no temp file, `isPlaying` false)
but a request still owns the state (`activeRequestId` set, playing text
set), `cancelCurrentPlayback` changes shared state: it unconditionally
clears `activeRequestId` and `currentPlayingText`. -/
theorem claim7_counterexample :
    (({ activeRequestId := some 7, currentPlayingText := "x" } : Shared).currentPlayer = none ∧
     ({ activeRequestId := some 7, currentPlayingText := "x" } : Shared).currentTempFile = "" ∧
     ({ activeRequestId := some 7, currentPlayingText := "x" } : Shared).isPlaying = false) ∧
    cancelCurrentPlayback { activeRequestId := some 7, currentPlayingText := "x" } ≠
      { activeRequestId := some 7, currentPlayingText := "x" } :=
  ⟨⟨rfl, rfl, rfl⟩, by decide⟩

/-- C7 (amended): `cancelCurrentPlayback` never throws (it is a total
function of the shared state), it is idempotent (calling it twice
equals calling it once, unconditionally), and it leaves the state
unchanged when nothing is playing AND no request owns the state (player
null, temp file empty, `isPlaying` false, `activeRequestId` null,
playing text empty).  When only the first three hold it still releases
the ownership token and clears the playing text. -/
theorem claim7_cancel_idempotent :
    (∀ sh : Shared, sh.currentPlayer = none → sh.currentTempFile = "" →
        sh.isPlaying = false → sh.activeRequestId = none → sh.currentPlayingText = "" →
        cancelCurrentPlayback sh = sh) ∧
    (∀ sh : Shared, cancelCurrentPlayback (cancelCurrentPlayback sh) =
        cancelCurrentPlayback sh) := by
  constructor
  · intro sh h1 h2 h3 h4 h5
    rcases sh
    simp_all [cancelCurrentPlayback]
  · intro sh
    rfl

theorem claim7_cancel_idempotent_witness :
    cancelCurrentPlayback {} = ({} : Shared) ∧
    cancelCurrentPlayback (cancelCurrentPlayback {}) = cancelCurrentPlayback ({} : Shared) :=
  ⟨claim7_cancel_idempotent.1 {} rfl rfl rfl rfl rfl,
   claim7_cancel_idempotent.2 {}⟩

/-- C9: the batch loop of `speakFromFiles` is partial-failure tolerant:
for every outcome list the batch completes normally (never fails fast)
and every file index is attempted in order; in particular with 3 files
whose 2nd fails, the 3rd is still attempted. -/
theorem claim9_batch_tolerance :
    (∀ outcomes : List (Except String Unit), ∃ l,
        speakFromFilesModel outcomes = .ok l ∧
        l.map Prod.fst = List.range outcomes.length) ∧
    speakFromFilesModel [.ok (), .error "synthesis failed", .ok ()] =
      .ok [(0, true), (1, false), (2, true)] := by
  constructor
  · intro outcomes
    refine ⟨batchGo 0 outcomes, rfl, ?_⟩
    rw [batchGo_map_fst, List.range_eq_range']
  · rfl

/-- C10: an error whose JS `message` is missing (modelled by the empty
string, coerced by `(error as Error)?.message || "Unknown error"`) or
literally "Unknown error" is classified by the static speak catch as a
cancellation — `{success: false, cancelled: true}` — even though the
call still owns `activeRequestId` (single call, no newer request) and
the error is not abort-shaped.  This holds when the write pipeline
fails and when the player process errors. -/
theorem claim10_unknown_error_cancellation :
    (runTTS (initConfig [mkCall 1 2 3 "hello" (some "") none])
        [0, 0, 0, 0, 0]).calls.map Call.result =
      [some ⟨false, some true, "播放被新请求取消"⟩] ∧
    (runTTS (initConfig [mkCall 1 2 3 "hello" (some "Unknown error") none])
        [0, 0, 0, 0, 0]).calls.map Call.result =
      [some ⟨false, some true, "播放被新请求取消"⟩] ∧
    (runTTS (initConfig [mkCall 1 2 3 "hello" none (some "")])
        [0, 0, 0, 0, 0, 0, 0]).calls.map Call.result =
      [some ⟨false, some true, "播放被新请求取消"⟩] :=
  ⟨rfl, rfl, rfl⟩

set_option maxHeartbeats 2000000 in
/-- C2 (counterexample): call A (rid 1) reaches playback; call B
(rid 4) supersedes it — its prelude SIGKILLs A's player and aborts A's
stream — and claims ownership after A (claim log [1, 4]).  Yet A's
close handler resolves unconditionally, so A's pipeline completes
without error and A's result is `{success: true}`, not
`{cancelled: true}` as the claim requires. -/
theorem claim2_counterexample :
    (runTTS (initConfig [mkCall 1 2 3 "hello" none none, mkCall 4 5 6 "world" none none])
        [0, 0, 0, 1, 0, 0, 0, 0, 1, 1, 1, 1, 1, 1, 1, 1]).sh.claimLog = [1, 4] ∧
    (runTTS (initConfig [mkCall 1 2 3 "hello" none none, mkCall 4 5 6 "world" none none])
        [0, 0, 0, 1, 0, 0, 0, 0, 1, 1, 1, 1, 1, 1, 1, 1]).calls.map Call.result =
      [some ⟨true, none, "播放完成"⟩, some ⟨true, none, "播放完成"⟩] :=
  ⟨rfl, rfl⟩

/-- C2 (amended): once a newer request B owns `activeRequestId`, a
superseded call A's cleanup never clears B's ownership: A's static
finally is the identity when the owner differs, A's nativeStreamSpeak
finally never touches `activeRequestId` or `currentPlayingText`, and if
A's pipeline ends in the error path while B owns the state, A's result
is `{success: false, cancelled: true}` with the shared state untouched
by A's catch/finally.  (If A's pipeline completes without error — e.g.
its player was SIGKILLed and the close handler resolved — A reports
`success: true`; see the counterexample.) -/
theorem claim2_ownership_monotonic :
    (∀ (sh : Shared) (rid : Nat), sh.activeRequestId ≠ some rid →
        staticFinally rid sh = sh) ∧
    (∀ (sid : Nat) (sh : Shared),
        (nFinally sid sh).activeRequestId = sh.activeRequestId ∧
        (nFinally sid sh).currentPlayingText = sh.currentPlayingText) ∧
    (∀ (sh : Shared) (c : Call) (e : String),
        c.pc = .staticDone → c.err = some e → sh.activeRequestId ≠ some c.rid →
        (segDispatch sh c).sh = sh ∧
        (segDispatch sh c).c.result = some ⟨false, some true, "播放被新请求取消"⟩) := by
  refine ⟨?_, ?_, ?_⟩
  · intro sh rid h
    simp [staticFinally, h]
  · intro sid sh
    unfold nFinally
    constructor <;> split <;> rfl
  · intro sh c e hpc herr hown
    have hd : segDispatch sh c = segStaticDone sh c := by
      unfold segDispatch; rw [hpc]
    rw [hd]
    unfold segStaticDone
    rw [herr]
    constructor
    · simp [staticFinally, hown]
    · simp [classifyCatch, hown]

theorem claim2_ownership_monotonic_witness :
    staticFinally 1 { activeRequestId := some 4 } = { activeRequestId := some 4 } ∧
    (segDispatch { activeRequestId := some 4 }
        { mkCall 1 2 3 "hello" none none with pc := .staticDone, err := some "boom" }).c.result =
      some ⟨false, some true, "播放被新请求取消"⟩ :=
  ⟨claim2_ownership_monotonic.1 { activeRequestId := some 4 } 1 (by decide),
   (claim2_ownership_monotonic.2.2 { activeRequestId := some 4 }
      { mkCall 1 2 3 "hello" none none with pc := .staticDone, err := some "boom" }
      "boom" rfl rfl (by decide)).2⟩

/-- C4: if a call's temp-file write resolved but at the moment its
continuation runs the ownership re-check right before playback fails
(`activeStreamId` no longer equals its stream id), the segment neither
touches shared state nor spawns the player — the call moves into the
cleanup region — and over any subsequent schedule it stays in the
cleanup region, so `playAudioFile` is never invoked for that
request. -/
theorem claim4_ownership_recheck :
    (∀ (sh : Shared) (c : Call), c.pc = .awaitWrite → c.writeAborted = false →
        c.writePlan = none → sh.activeStreamId ≠ some c.sid →
        (segDispatch sh c).sh = sh ∧
        (segDispatch sh c).c = { c with err := none, pc := .iifeDone }) ∧
    (∀ (cfg : Config) (sched : List Nat) (i : Nat) (c : Call),
        cfg.calls[i]? = some c → cleanupPC c.pc →
        ∃ c', (runTTS cfg sched).calls[i]? = some c' ∧ cleanupPC c'.pc) := by
  constructor
  · intro sh c hpc hab hplan hown
    have hd : segDispatch sh c = segAwaitWrite sh c := by
      unfold segDispatch; rw [hpc]
    rw [hd]
    unfold segAwaitWrite
    rw [hab, hplan]
    simp [hown]
  · intro cfg sched i c h1 h2
    exact cleanupPC_run cfg sched i c h1 h2

theorem claim4_ownership_recheck_witness :
    (segDispatch { activeStreamId := some 99 }
        { mkCall 1 2 3 "hello" none none with pc := .awaitWrite }).sh =
      { activeStreamId := some 99 } ∧
    (segDispatch { activeStreamId := some 99 }
        { mkCall 1 2 3 "hello" none none with pc := .awaitWrite }).c =
      { mkCall 1 2 3 "hello" none none with err := none, pc := .iifeDone } ∧
    ∃ c', (runTTS ⟨{}, [{ mkCall 1 2 3 "hello" none none with pc := .iifeDone }]⟩
        [0, 0, 0]).calls[0]? = some c' ∧ cleanupPC c'.pc :=
  ⟨(claim4_ownership_recheck.1 { activeStreamId := some 99 }
      { mkCall 1 2 3 "hello" none none with pc := .awaitWrite } rfl rfl rfl (by decide)).1,
   (claim4_ownership_recheck.1 { activeStreamId := some 99 }
      { mkCall 1 2 3 "hello" none none with pc := .awaitWrite } rfl rfl rfl (by decide)).2,
   claim4_ownership_recheck.2 ⟨{}, [{ mkCall 1 2 3 "hello" none none with pc := .iifeDone }]⟩
      [0, 0, 0] 0 _ rfl (Or.inl rfl)⟩

/-- C5 (counterexample): if a player is active when `speak("")` is
called, the call DOES touch shared player state: the prelude
force-kills the existing player (currentPlayer goes from `some 99` to
`none`) before the empty-text error surfaces. -/
theorem claim5_counterexample :
    (({ currentPlayer := some 99 } : Shared).currentPlayer = some 99) ∧
    (runTTS ⟨{ currentPlayer := some 99 }, [mkCall 1 2 3 "" none none]⟩
        [0, 0, 0]).sh.currentPlayer = none ∧
    (runTTS ⟨{ currentPlayer := some 99 }, [mkCall 1 2 3 "" none none]⟩
        [0, 0, 0]).calls.map Call.result =
      [some ⟨false, some false, "播放失败: 文本为空"⟩] :=
  ⟨rfl, rfl, rfl⟩

/-- C5 (amended): from an idle shared state, `speak` on text that
normalizes to empty returns `{success: false, cancelled: false}` with a
message containing 空, and the shared state ends idle again — in
particular `currentPlayer` and `isPlaying` are never touched.  (If a
playback is active at call time the prelude still force-cancels it; see
the counterexample.) -/
theorem claim5_empty_text (text : String) (w p : Option String)
    (h : cleanTextL text.data = []) :
    (runTTS (initConfig [mkCall 1 2 3 text w p]) [0, 0]).calls.map Call.result =
      [some ⟨false, some false, "播放失败: 文本为空"⟩] ∧
    strContains "播放失败: 文本为空" "空" = true ∧
    (runTTS (initConfig [mkCall 1 2 3 text w p]) [0, 0]).sh.currentPlayer = none ∧
    (runTTS (initConfig [mkCall 1 2 3 text w p]) [0, 0]).sh.isPlaying = false ∧
    (runTTS (initConfig [mkCall 1 2 3 text w p]) [0, 0]).sh.activeRequestId = none ∧
    (runTTS (initConfig [mkCall 1 2 3 text w p]) [0, 0]).sh.activeStreamId = none ∧
    (runTTS (initConfig [mkCall 1 2 3 text w p]) [0, 0]).sh.currentPlayingText = "" ∧
    (runTTS (initConfig [mkCall 1 2 3 text w p]) [0, 0]).sh.streamLock = false := by
  have hrun : runTTS (initConfig [mkCall 1 2 3 text w p]) [0, 0] =
      ⟨{ claimLog := [1] }, [{ mkCall 1 2 3 text w p with
          err := some "文本为空", pc := .done,
          result := some ⟨false, some false, "播放失败: 文本为空"⟩ }]⟩ := by
    simp [runTTS, step, initConfig, mkCall, segDispatch, segStart, claimAndSeg1,
      seg1Entry, seg1Lock, seg1Own, segStaticDone, nFinally, staticFinally,
      classifyCatch, cancelCurrentPlayback, h]
    exact ⟨⟨rfl, rfl⟩, rfl⟩
  rw [hrun]
  refine ⟨rfl, rfl, rfl, rfl, rfl, rfl, rfl, rfl⟩

theorem claim5_empty_text_witness :
    cleanTextL ("".data) = [] ∧
    (runTTS (initConfig [mkCall 1 2 3 "" none none]) [0, 0]).calls.map Call.result =
      [some ⟨false, some false, "播放失败: 文本为空"⟩] :=
  ⟨rfl, (claim5_empty_text "" none none rfl).1⟩

/-! ### cleanText idempotence machinery -/

theorem mem_collapseAux (p : Char → Bool) (r : Char) :
    ∀ (b : Bool) (l : List Char) (c : Char),
      c ∈ collapseAux p r b l → c ∈ l ∨ c = r := by
  intro b l
  induction l generalizing b with
  | nil => intro c h; simp [collapseAux] at h
  | cons a as ih =>
    intro c h
    simp only [collapseAux] at h
    by_cases hp : p a
    · simp only [hp, if_pos] at h
      by_cases hb : b
      · subst hb
        simp only [if_pos] at h
        rcases ih true c h with h' | h'
        · exact Or.inl (List.mem_cons_of_mem a h')
        · exact Or.inr h'
      · simp only [hb, if_false, if_neg] at h
        rcases List.mem_cons.mp h with h' | h'
        · exact Or.inr h'
        · rcases ih true c h' with h'' | h''
          · exact Or.inl (List.mem_cons_of_mem a h'')
          · exact Or.inr h''
    · simp only [hp, if_neg, if_false] at h
      rcases List.mem_cons.mp h with h' | h'
      · exact Or.inl (h' ▸ List.mem_cons_self a as)
      · rcases ih false c h' with h'' | h''
        · exact Or.inl (List.mem_cons_of_mem a h'')
        · exact Or.inr h''

theorem collapseAux_no_p (p : Char → Bool) (r : Char) (hr : p r = false) :
    ∀ (b : Bool) (l : List Char) (c : Char),
      c ∈ collapseAux p r b l → p c = false := by
  intro b l
  induction l generalizing b with
  | nil => intro c h; simp [collapseAux] at h
  | cons a as ih =>
    intro c h
    simp only [collapseAux] at h
    by_cases hp : p a
    · simp only [hp, if_pos] at h
      by_cases hb : b
      · subst hb; simp only [if_pos] at h; exact ih true c h
      · simp only [hb, if_false, if_neg] at h
        rcases List.mem_cons.mp h with h' | h'
        · exact h' ▸ hr
        · exact ih true c h'
    · simp only [hp, if_neg, if_false] at h
      rcases List.mem_cons.mp h with h' | h'
      · exact h' ▸ (by simpa using hp)
      · exact ih false c h'

theorem collapseAux_p_eq_r (p : Char → Bool) (r : Char) :
    ∀ (b : Bool) (l : List Char) (c : Char),
      c ∈ collapseAux p r b l → p c = true → c = r := by
  intro b l
  induction l generalizing b with
  | nil => intro c h; simp [collapseAux] at h
  | cons a as ih =>
    intro c h hc
    simp only [collapseAux] at h
    by_cases hp : p a
    · simp only [hp, if_pos] at h
      by_cases hb : b
      · subst hb; simp only [if_pos] at h; exact ih true c h hc
      · simp only [hb, if_false, if_neg] at h
        rcases List.mem_cons.mp h with h' | h'
        · exact h'
        · exact ih true c h' hc
    · simp only [hp, if_neg, if_false] at h
      rcases List.mem_cons.mp h with h' | h'
      · subst h'; simp [hc] at hp
      · exact ih false c h' hc

theorem collapseAux_true_head (p : Char → Bool) (r : Char) :
    ∀ l : List Char, collapseAux p r true l = [] ∨
      ∃ c cs, collapseAux p r true l = c :: cs ∧ p c = false := by
  intro l
  induction l with
  | nil => exact Or.inl rfl
  | cons a as ih =>
    by_cases hp : p a
    · simpa [collapseAux, hp] using ih
    · exact Or.inr ⟨a, collapseAux p r false as, by simp [collapseAux, hp], by simpa using hp⟩

theorem collapseAux_false_head (p : Char → Bool) (r : Char) (a : Char) (as : List Char) :
    collapseAux p r false (a :: as) = r :: collapseAux p r true as ∧ p a = true ∨
    collapseAux p r false (a :: as) = a :: collapseAux p r false as ∧ p a = false := by
  by_cases hp : p a
  · exact Or.inl ⟨by simp [collapseAux, hp], hp⟩
  · exact Or.inr ⟨by simp [collapseAux, hp], by simpa using hp⟩

theorem chainOk_tail (p : Char → Bool) (c : Char) (l : List Char)
    (h : chainOk p (c :: l) = true) : chainOk p l = true := by
  cases l with
  | nil => rfl
  | cons d ds => simp only [chainOk, Bool.and_eq_true] at h; exact h.2

theorem chainOk_pair (p : Char → Bool) (c d : Char) (l : List Char)
    (h : chainOk p (c :: d :: l) = true) : (p c && p d) = false := by
  simp only [chainOk, Bool.and_eq_true, Bool.not_eq_true'] at h
  exact h.1

theorem chainOk_cons (p : Char → Bool) (c : Char) (l : List Char)
    (hl : chainOk p l = true)
    (hh : ∀ d, l.head? = some d → (p c && p d) = false) :
    chainOk p (c :: l) = true := by
  cases l with
  | nil => rfl
  | cons d ds =>
    simp only [chainOk, Bool.and_eq_true, Bool.not_eq_true']
    exact ⟨hh d rfl, hl⟩

theorem chainOk_of_no_p (p : Char → Bool) :
    ∀ l : List Char, (∀ c ∈ l, p c = false) → chainOk p l = true := by
  intro l
  induction l with
  | nil => intro _; rfl
  | cons a as ih =>
    intro h
    refine chainOk_cons p a as (ih fun c hc => h c (List.mem_cons_of_mem a hc)) ?_
    intro d _
    simp [h a (List.mem_cons_self a as)]

theorem chainOk_collapseAux (p : Char → Bool) (r : Char) :
    ∀ (l : List Char) (b : Bool), chainOk p (collapseAux p r b l) = true := by
  intro l
  induction l with
  | nil => intro b; rfl
  | cons a as ih =>
    intro b
    by_cases hp : p a
    · by_cases hb : b
      · subst hb
        simpa [collapseAux, hp] using ih true
      · simp only [collapseAux, hp, if_pos, hb, if_false, if_neg]
        refine chainOk_cons p r _ (ih true) ?_
        intro d hd
        rcases collapseAux_true_head p r as with h0 | ⟨c0, cs0, h0, hc0⟩
        · rw [h0] at hd; exact absurd hd (by simp)
        · rw [h0] at hd
          injection hd with hd'
          subst hd'
          simp [hc0]
    · simp only [collapseAux, hp, if_neg, if_false]
      refine chainOk_cons p a _ (ih false) ?_
      intro d hd
      simp only [Bool.and_eq_false_iff]
      exact Or.inl (by simpa using hp)

theorem chainOk_collapseAux_preserve (p p' : Char → Bool) (r' : Char)
    (hr : p r' = false) :
    ∀ (l : List Char) (b : Bool), chainOk p l = true →
      chainOk p (collapseAux p' r' b l) = true := by
  intro l
  induction l with
  | nil => intro b _; rfl
  | cons a as ih =>
    intro b hl
    have has : chainOk p as = true := chainOk_tail p a as hl
    by_cases hp : p' a
    · by_cases hb : b
      · subst hb
        simpa [collapseAux, hp] using ih true has
      · simp only [collapseAux, hp, if_pos, hb, if_false, if_neg]
        refine chainOk_cons p r' _ (ih true has) ?_
        intro d _
        simp [hr]
    · simp only [collapseAux, hp, if_neg, if_false]
      refine chainOk_cons p a _ (ih false has) ?_
      intro d hd
      cases as with
      | nil => simp [collapseAux] at hd
      | cons e es =>
        rcases collapseAux_false_head p' r' e es with ⟨h0, _⟩ | ⟨h0, _⟩
        · rw [h0] at hd
          injection hd with hd'
          subst hd'
          simp [hr]
        · rw [h0] at hd
          injection hd with hd'
          subst hd'
          exact chainOk_pair p a e es hl

theorem collapseAux_true_eq_false (p : Char → Bool) (r : Char) :
    ∀ l : List Char, (l.head? = none ∨ ∃ c cs, l = c :: cs ∧ p c = false) →
      collapseAux p r true l = collapseAux p r false l := by
  intro l h
  rcases h with h | ⟨c, cs, rfl, hc⟩
  · cases l with
    | nil => rfl
    | cons a as => simp at h
  · simp [collapseAux, hc]

theorem collapseAux_fixpoint (p : Char → Bool) (r : Char) :
    ∀ l : List Char, (∀ c ∈ l, p c = true → c = r) → chainOk p l = true →
      collapseAux p r false l = l := by
  intro l
  induction l with
  | nil => intro _ _; rfl
  | cons a as ih =>
    intro hall hchain
    have has : chainOk p as = true := chainOk_tail p a as hchain
    have hallas : ∀ c ∈ as, p c = true → c = r :=
      fun c hc => hall c (List.mem_cons_of_mem a hc)
    by_cases hp : p a
    · have har : a = r := hall a (List.mem_cons_self a as) hp
      have h1 : collapseAux p r false (a :: as) = r :: collapseAux p r true as := by
        simp [collapseAux, hp]
      rw [h1, har]
      congr 1
      rw [collapseAux_true_eq_false p r as ?_, ih hallas has]
      cases as with
      | nil => exact Or.inl rfl
      | cons e es =>
        refine Or.inr ⟨e, es, rfl, ?_⟩
        have := chainOk_pair p a e es hchain
        simp only [hp, Bool.true_and] at this
        exact this
    · simp only [collapseAux, hp, if_neg, Bool.false_eq_true, if_false]
      congr 1
      exact ih hallas has

theorem mem_dropWhileL (q : Char → Bool) :
    ∀ (l : List Char) (c : Char), c ∈ l.dropWhile q → c ∈ l := by
  intro l
  induction l with
  | nil => intro c h; simp [List.dropWhile] at h
  | cons a as ih =>
    intro c h
    simp only [List.dropWhile] at h
    by_cases hq : q a
    · simp only [hq, if_pos] at h
      exact List.mem_cons_of_mem a (ih c h)
    · simp only [hq, if_neg, Bool.false_eq_true, if_false] at h
      exact h

theorem head_dropWhileL (q : Char → Bool) :
    ∀ (l : List Char) (c : Char), (l.dropWhile q).head? = some c → q c = false := by
  intro l
  induction l with
  | nil => intro c h; simp [List.dropWhile] at h
  | cons a as ih =>
    intro c h
    simp only [List.dropWhile] at h
    by_cases hq : q a
    · simp only [hq, if_pos] at h
      exact ih c h
    · simp only [hq, if_neg, Bool.false_eq_true, if_false] at h
      injection h with h'
      subst h'
      simpa using hq

theorem dropWhileL_fixpoint (q : Char → Bool) :
    ∀ l : List Char, (∀ c, l.head? = some c → q c = false) → l.dropWhile q = l := by
  intro l h
  cases l with
  | nil => rfl
  | cons a as => simp [List.dropWhile, h a rfl]

theorem chainOk_dropWhileL (p q : Char → Bool) :
    ∀ l : List Char, chainOk p l = true → chainOk p (l.dropWhile q) = true := by
  intro l
  induction l with
  | nil => intro _; rfl
  | cons a as ih =>
    intro h
    simp only [List.dropWhile]
    by_cases hq : q a
    · simp only [hq, if_pos]
      exact ih (chainOk_tail p a as h)
    · simp only [hq, if_neg, Bool.false_eq_true, if_false]
      exact h

theorem mem_trimRight (q : Char → Bool) :
    ∀ (l : List Char) (c : Char), c ∈ trimRight q l → c ∈ l := by
  intro l
  induction l with
  | nil => intro c h; simp [trimRight] at h
  | cons a as ih =>
    intro c h
    simp only [trimRight] at h
    split at h
    · simp at h
    · rcases List.mem_cons.mp h with h' | h'
      · exact h' ▸ List.mem_cons_self a as
      · exact List.mem_cons_of_mem a (ih c h')

theorem trimRight_head (q : Char → Bool) (a : Char) (as : List Char) :
    trimRight q (a :: as) = [] ∨ ∃ ds, trimRight q (a :: as) = a :: ds := by
  simp only [trimRight]
  split
  · exact Or.inl rfl
  · exact Or.inr ⟨trimRight q as, rfl⟩

theorem trimRight_getLast (q : Char → Bool) :
    ∀ (l : List Char) (c : Char), (trimRight q l).getLast? = some c → q c = false := by
  intro l
  induction l with
  | nil => intro c h; simp [trimRight] at h
  | cons a as ih =>
    intro c h
    simp only [trimRight] at h
    split at h
    · simp at h
    · rename_i hcond
      rcases hr : trimRight q as with _ | ⟨e, es⟩
      · rw [hr] at h
        simp only [List.getLast?_singleton] at h
        injection h with h'
        subst h'
        rw [hr] at hcond
        simp only [List.isEmpty_nil, Bool.true_and] at hcond
        simpa using hcond
      · rw [hr] at h
        rw [List.getLast?_cons_cons] at h
        exact ih c (hr ▸ h)

theorem trimRight_fixpoint (q : Char → Bool) :
    ∀ l : List Char, (∀ c, l.getLast? = some c → q c = false) → trimRight q l = l := by
  intro l
  induction l with
  | nil => intro _; rfl
  | cons a as ih =>
    intro h
    cases as with
    | nil =>
      have : q a = false := h a rfl
      simp [trimRight, this]
    | cons e es =>
      have has : trimRight q (e :: es) = e :: es := by
        refine ih ?_
        intro c hc
        refine h c ?_
        rw [List.getLast?_cons_cons]
        exact hc
      show (if (trimRight q (e :: es)).isEmpty && q a then []
        else a :: trimRight q (e :: es)) = a :: e :: es
      rw [has]
      simp

theorem chainOk_trimRight (p q : Char → Bool) :
    ∀ l : List Char, chainOk p l = true → chainOk p (trimRight q l) = true := by
  intro l
  induction l with
  | nil => intro _; rfl
  | cons a as ih =>
    intro h
    simp only [trimRight]
    split
    · rfl
    · refine chainOk_cons p a _ (ih (chainOk_tail p a as h)) ?_
      intro d hd
      cases as with
      | nil => simp [trimRight] at hd
      | cons e es =>
        rcases trimRight_head q e es with h0 | ⟨ds, h0⟩
        · rw [h0] at hd; simp at hd
        · rw [h0] at hd
          injection hd with hd'
          subst hd'
          exact chainOk_pair p a e es h

set_option maxHeartbeats 4000000 in
theorem urlScan_mem :
    ∀ (b : Bool) (l : List Char) (c : Char),
      c ∈ urlScan b l → c ∈ l ∨ c = '网' ∨ c = '址' := by
  intro b l
  induction b, l using urlScan.induct with
  | case1 b => intro c h; simp [urlScan] at h
  | case2 a cs hws ih =>
    intro c h
    rw [show urlScan true (a :: cs) = a :: urlScan false cs by
      simp [urlScan, hws]] at h
    rcases List.mem_cons.mp h with h' | h'
    · exact Or.inl (h' ▸ List.mem_cons_self a cs)
    · rcases ih c h' with h'' | h''
      · exact Or.inl (List.mem_cons_of_mem a h'')
      · exact Or.inr h''
  | case3 a cs hws ih =>
    intro c h
    rw [show urlScan true (a :: cs) = urlScan true cs by
      simp [urlScan, hws]] at h
    rcases ih c h with h'' | h''
    · exact Or.inl (List.mem_cons_of_mem a h'')
    · exact Or.inr h''
  | case4 r rs hws ih =>
    intro c h
    rw [show urlScan false ('h' :: 't' :: 't' :: 'p' :: ':' :: '/' :: '/' :: r :: rs) =
        'h' :: 't' :: 't' :: 'p' :: ':' :: '/' :: '/' :: urlScan false (r :: rs) by
      simp [urlScan, hws]] at h
    simp only [List.mem_cons] at h
    rcases h with h|h|h|h|h|h|h|h
    · exact Or.inl (by simp [h])
    · exact Or.inl (by simp [h])
    · exact Or.inl (by simp [h])
    · exact Or.inl (by simp [h])
    · exact Or.inl (by simp [h])
    · exact Or.inl (by simp [h])
    · exact Or.inl (by simp [h])
    · rcases ih c h with h' | h'
      · exact Or.inl (by simp only [List.mem_cons] at h' ⊢; tauto)
      · exact Or.inr h'
  | case5 r rs hws ih =>
    intro c h
    rw [show urlScan false ('h' :: 't' :: 't' :: 'p' :: ':' :: '/' :: '/' :: r :: rs) =
        '网' :: '址' :: urlScan true (r :: rs) by
      simp [urlScan, hws]] at h
    simp only [List.mem_cons] at h
    rcases h with h|h|h
    · exact Or.inr (Or.inl h)
    · exact Or.inr (Or.inr h)
    · rcases ih c h with h' | h'
      · exact Or.inl (by simp only [List.mem_cons] at h' ⊢; tauto)
      · exact Or.inr h'
  | case6 r rs hws ih =>
    intro c h
    rw [show urlScan false ('h' :: 't' :: 't' :: 'p' :: 's' :: ':' :: '/' :: '/' :: r :: rs) =
        'h' :: 't' :: 't' :: 'p' :: 's' :: ':' :: '/' :: '/' :: urlScan false (r :: rs) by
      simp [urlScan, hws]] at h
    simp only [List.mem_cons] at h
    rcases h with h|h|h|h|h|h|h|h|h
    · exact Or.inl (by simp [h])
    · exact Or.inl (by simp [h])
    · exact Or.inl (by simp [h])
    · exact Or.inl (by simp [h])
    · exact Or.inl (by simp [h])
    · exact Or.inl (by simp [h])
    · exact Or.inl (by simp [h])
    · exact Or.inl (by simp [h])
    · rcases ih c h with h' | h'
      · exact Or.inl (by simp only [List.mem_cons] at h' ⊢; tauto)
      · exact Or.inr h'
  | case7 r rs hws ih =>
    intro c h
    rw [show urlScan false ('h' :: 't' :: 't' :: 'p' :: 's' :: ':' :: '/' :: '/' :: r :: rs) =
        '网' :: '址' :: urlScan true (r :: rs) by
      simp [urlScan, hws]] at h
    simp only [List.mem_cons] at h
    rcases h with h|h|h
    · exact Or.inr (Or.inl h)
    · exact Or.inr (Or.inr h)
    · rcases ih c h with h' | h'
      · exact Or.inl (by simp only [List.mem_cons] at h' ⊢; tauto)
      · exact Or.inr h'
  | case8 a cs hne1 hne2 ih =>
    intro c h
    have hrw : urlScan false (a :: cs) = a :: urlScan false cs := by
      rw [urlScan.eq_def]
      split
      all_goals first
        | rfl
        | (rename_i heq; exact absurd heq (List.cons_ne_nil a cs))
        | (rename_i heqb heql; exact absurd heqb Bool.false_ne_true)
        | (exact (hne1 _ _ rfl rfl).elim)
        | (exact (hne2 _ _ rfl rfl).elim)
        | (rename_i r0 rs0 heqb heql
           injection heql with h1 h2
           subst h1
           subst h2
           first
             | exact (hne1 r0 rs0 rfl rfl).elim
             | exact (hne2 r0 rs0 rfl rfl).elim
             | rfl)
    rw [hrw] at h
    rcases List.mem_cons.mp h with h' | h'
    · exact Or.inl (h' ▸ List.mem_cons_self a cs)
    · rcases ih c h' with h'' | h''
      · exact Or.inl (List.mem_cons_of_mem a h'')
      · exact Or.inr h''

theorem urlReplace_mem (l : List Char) (c : Char) (h : c ∈ urlReplace l) :
    c ∈ l ∨ c = '网' ∨ c = '址' :=
  urlScan_mem false l c h

theorem mem_trimL (l : List Char) (c : Char) (h : c ∈ trimL l) : c ∈ l :=
  mem_dropWhileL jsWs l c (mem_trimRight jsWs _ c h)

theorem chainOk_trimL (p : Char → Bool) (l : List Char)
    (h : chainOk p l = true) : chainOk p (trimL l) = true :=
  chainOk_trimRight p jsWs _ (chainOk_dropWhileL p jsWs l h)

theorem trimL_head (l : List Char) (c : Char)
    (h : (trimL l).head? = some c) : jsWs c = false := by
  unfold trimL at h
  rcases hx : l.dropWhile jsWs with _ | ⟨x, xs⟩
  · rw [hx] at h; simp [trimRight] at h
  · rw [hx] at h
    rcases trimRight_head jsWs x xs with h0 | ⟨ds, h0⟩
    · rw [h0] at h; simp at h
    · rw [h0] at h
      injection h with h'
      rw [← h']
      exact head_dropWhileL jsWs l x (by rw [hx]; rfl)

theorem trimL_getLast (l : List Char) (c : Char)
    (h : (trimL l).getLast? = some c) : jsWs c = false :=
  trimRight_getLast jsWs _ c h

theorem trimL_fixpoint (l : List Char)
    (hh : ∀ c, l.head? = some c → jsWs c = false)
    (hl : ∀ c, l.getLast? = some c → jsWs c = false) : trimL l = l := by
  unfold trimL
  rw [dropWhileL_fixpoint jsWs l hh]
  exact trimRight_fixpoint jsWs l hl

theorem filter_self_of_all (p : Char → Bool) :
    ∀ l : List Char, (∀ a ∈ l, p a = true) → l.filter p = l := by
  intro l
  induction l with
  | nil => intro _; rfl
  | cons a as ih =>
    intro h
    rw [List.filter_cons]
    simp only [h a (List.mem_cons_self a as), if_pos]
    rw [ih fun b hb => h b (List.mem_cons_of_mem a hb)]

/-- C8 core: the cleanText pipeline is idempotent on every input whose
first-pass output contains no URL match (the URL-replacement step fixes
it). -/
theorem cleanTextL_idem (d : List Char)
    (h : urlReplace (cleanTextL d) = cleanTextL d) :
    cleanTextL (cleanTextL d) = cleanTextL d := by
  set u0 := stripCR d with hu0
  set u1 := urlReplace u0 with hu1
  set u2 := collapseRun (fun c => c = '\n') '。' u1 with hu2
  set u3 := collapseRun jsWs ' ' u2 with hu3
  set u4 := collapseRun (fun c => c = '，') '，' u3 with hu4
  set u5 := collapseRun (fun c => c = '。') '。' u4 with hu5
  have ht : cleanTextL d = trimL u5 := by
    simp only [hu5, hu4, hu3, hu2, hu1, hu0]
    rfl
  -- membership chains from the final pass-1 list back to the stages
  have m5 : ∀ c ∈ cleanTextL d, c ∈ u5 := by
    intro c hc; rw [ht] at hc; exact mem_trimL u5 c hc
  have m4 : ∀ c ∈ cleanTextL d, c ∈ u4 ∨ c = '。' := by
    intro c hc
    exact mem_collapseAux _ '。' false u4 c (m5 c hc)
  have m3 : ∀ c ∈ cleanTextL d, c ∈ u3 ∨ c = '，' ∨ c = '。' := by
    intro c hc
    rcases m4 c hc with h' | h'
    · rcases mem_collapseAux _ '，' false u3 c h' with h'' | h''
      · exact Or.inl h''
      · exact Or.inr (Or.inl h'')
    · exact Or.inr (Or.inr h')
  have m2 : ∀ c ∈ cleanTextL d, c ∈ u2 ∨ c = ' ' ∨ c = '，' ∨ c = '。' := by
    intro c hc
    rcases m3 c hc with h' | h'
    · rcases mem_collapseAux jsWs ' ' false u2 c h' with h'' | h''
      · exact Or.inl h''
      · exact Or.inr (Or.inl h'')
    · exact Or.inr (Or.inr h')
  -- A: no carriage return survives pass 1
  have hA : stripCR (cleanTextL d) = cleanTextL d := by
    unfold stripCR
    refine filter_self_of_all _ _ ?_
    intro a ha
    rcases m2 a ha with h' | h' | h' | h'
    · rcases mem_collapseAux _ '。' false u1 a h' with h'' | h''
      · rcases urlReplace_mem u0 a h'' with h3 | h3 | h3
        · rw [hu0] at h3
          unfold stripCR at h3
          exact (List.mem_filter.mp h3).2
        · subst h3; decide
        · subst h3; decide
      · subst h''; decide
    · subst h'; decide
    · subst h'; decide
    · subst h'; decide
  -- B: the URL step fixes pass-1 output (hypothesis)
  have hB : urlReplace (cleanTextL d) = cleanTextL d := h
  -- C: no newline survives pass 1
  have hnoLn : ∀ c ∈ cleanTextL d, (c = '\n' : Bool) = false := by
    intro c hc
    rcases m2 c hc with h' | h' | h' | h'
    · have := collapseAux_no_p (fun c => c = '\n') '。' (by decide) false u1 c h'
      exact this
    · subst h'; decide
    · subst h'; decide
    · subst h'; decide
  have hC : collapseRun (fun c => c = '\n') '。' (cleanTextL d) = cleanTextL d := by
    refine collapseAux_fixpoint _ '。' _ ?_ ?_
    · intro c hc hpc
      rw [hnoLn c hc] at hpc
      exact absurd hpc (by simp)
    · exact chainOk_of_no_p _ _ hnoLn
  -- D: every whitespace character of pass-1 output is a plain space,
  -- and no two are adjacent
  have hwsEq : ∀ c ∈ cleanTextL d, jsWs c = true → c = ' ' := by
    intro c hc hws
    rcases m3 c hc with h' | h' | h'
    · exact collapseAux_p_eq_r jsWs ' ' false u2 c h' hws
    · subst h'; exact absurd hws (by decide)
    · subst h'; exact absurd hws (by decide)
  have hwsChain : chainOk jsWs (cleanTextL d) = true := by
    rw [ht]
    refine chainOk_trimL jsWs u5 ?_
    rw [hu5]
    refine chainOk_collapseAux_preserve jsWs _ '。' (by decide) u4 false ?_
    rw [hu4]
    refine chainOk_collapseAux_preserve jsWs _ '，' (by decide) u3 false ?_
    rw [hu3]
    exact chainOk_collapseAux jsWs ' ' u2 false
  have hD : collapseRun jsWs ' ' (cleanTextL d) = cleanTextL d :=
    collapseAux_fixpoint jsWs ' ' _ hwsEq hwsChain
  -- E: no double 全角 comma
  have hE : collapseRun (fun c => c = '，') '，' (cleanTextL d) = cleanTextL d := by
    refine collapseAux_fixpoint _ '，' _ ?_ ?_
    · intro c _ hpc
      simpa using hpc
    · rw [ht]
      refine chainOk_trimL _ u5 ?_
      rw [hu5]
      refine chainOk_collapseAux_preserve _ _ '。' (by decide) u4 false ?_
      rw [hu4]
      exact chainOk_collapseAux _ '，' u3 false
  -- F: no double 全角 period
  have hF : collapseRun (fun c => c = '。') '。' (cleanTextL d) = cleanTextL d := by
    refine collapseAux_fixpoint _ '。' _ ?_ ?_
    · intro c _ hpc
      simpa using hpc
    · rw [ht]
      refine chainOk_trimL _ u5 ?_
      rw [hu5]
      exact chainOk_collapseAux _ '。' u4 false
  -- G: pass-1 output is already trimmed
  have hG : trimL (cleanTextL d) = cleanTextL d := by
    refine trimL_fixpoint _ ?_ ?_
    · intro c hc
      rw [ht] at hc
      exact trimL_head u5 c hc
    · intro c hc
      rw [ht] at hc
      exact trimL_getLast u5 c hc
  calc cleanTextL (cleanTextL d)
      = trimL (collapseRun (fun c => c = '。') '。'
          (collapseRun (fun c => c = '，') '，'
            (collapseRun jsWs ' '
              (collapseRun (fun c => c = '\n') '。'
                (urlReplace (stripCR (cleanTextL d))))))) := rfl
    _ = cleanTextL d := by rw [hA, hB, hC, hD, hE, hF, hG]

/-- C8 (counterexample): `cleanText` is not idempotent.  On the input
"http://\na" the URL regex does not match in the first pass (the scheme
is followed by a newline, and `[^\s]+` needs a non-whitespace
character), the newline collapse then turns the newline into 。, and
the second pass sees "http://。a" — now a full URL match — and replaces
it by 网址. -/
theorem claim8_counterexample :
    cleanText "http://\na" = "http://。a" ∧
    cleanText (cleanText "http://\na") = "网址" ∧
    ("网址" : String) ≠ "http://。a" :=
  ⟨rfl, rfl, by decide⟩

/-- C8 (amended): `cleanText` is idempotent on every input whose
normalized output contains no match of the URL pattern (equivalently,
on whose output the URL-replacement step is the identity).  A second
application can only differ by replacing a URL whose match was
completed by the newline collapse of the first pass. -/
theorem claim8_cleanText_idempotent (s : String)
    (h : urlReplace (cleanText s).data = (cleanText s).data) :
    cleanText (cleanText s) = cleanText s :=
  congrArg (fun l => (⟨l⟩ : String)) (cleanTextL_idem s.data h)

theorem claim8_cleanText_idempotent_witness :
    urlReplace (cleanText "a\nb").data = (cleanText "a\nb").data ∧
    cleanText (cleanText "a\nb") = cleanText "a\nb" :=
  ⟨rfl, claim8_cleanText_idempotent "a\nb" rfl⟩

/-! ### Single-flight invariant (C1) -/

theorem segDispatch_eff_pid (sh : Shared) (c u : Call) :
    ((segDispatch sh c).eff u).pid = u.pid := by
  rcases segDispatch_eff sh c with h | ⟨s, h⟩ <;> rw [h]
  · rfl
  · exact (casVictim_ids s u).2.2

theorem segDispatch_eff_sid (sh : Shared) (c u : Call) :
    ((segDispatch sh c).eff u).sid = u.sid := by
  rcases segDispatch_eff sh c with h | ⟨s, h⟩ <;> rw [h]
  · rfl
  · exact (casVictim_ids s u).2.1

theorem casFront_player (sh : Shared) :
    (casFront sh).currentPlayer = none ∨ (casFront sh).currentPlayer = sh.currentPlayer := by
  simp only [casFront]
  split
  · exact Or.inl rfl
  · exact Or.inr rfl

theorem casFront_stream (sh : Shared) :
    (casFront sh).activeStreamId = sh.activeStreamId := by
  simp only [casFront]
  split <;> rfl

theorem nFinally_player (sid : Nat) (sh : Shared) :
    (nFinally sid sh).currentPlayer = sh.currentPlayer := by
  simp only [nFinally]
  split <;> rfl

theorem nFinally_stream (sid : Nat) (sh : Shared) :
    (nFinally sid sh).activeStreamId = none ∨
    ((nFinally sid sh).activeStreamId = sh.activeStreamId ∧
      sh.activeStreamId ≠ some sid) := by
  simp only [nFinally]
  split
  · exact Or.inl rfl
  · rename_i hne
    exact Or.inr ⟨rfl, hne⟩

theorem staticFinally_player (rid : Nat) (sh : Shared) :
    (staticFinally rid sh).currentPlayer = sh.currentPlayer := by
  simp only [staticFinally]
  split <;> rfl

theorem staticFinally_stream (rid : Nat) (sh : Shared) :
    (staticFinally rid sh).activeStreamId = sh.activeStreamId := by
  simp only [staticFinally]
  split <;> rfl

theorem seg1Own_player (sh : Shared) (c : Call) :
    (seg1Own sh c).sh.currentPlayer = sh.currentPlayer := by
  simp only [seg1Own]
  split
  · rw [show (⟨nFinally c.sid { sh with activeStreamId := some c.sid },
        { c with err := some "文本为空", pc := .staticDone }, id⟩ : SegOut).sh =
        nFinally c.sid { sh with activeStreamId := some c.sid } from rfl]
    rw [nFinally_player]
  · rfl

theorem seg1Own_stream (sh : Shared) (c : Call) :
    (seg1Own sh c).sh.activeStreamId = none ∨
    ((seg1Own sh c).sh.activeStreamId = some c.sid ∧
      (seg1Own sh c).c.pc = PC.awaitMeta) := by
  simp only [seg1Own]
  split
  · exact Or.inl (by simp [nFinally])
  · exact Or.inr ⟨rfl, rfl⟩

theorem seg1Lock_player (sh : Shared) (c : Call) :
    (seg1Lock sh c).sh.currentPlayer = none ∨
    (seg1Lock sh c).sh.currentPlayer = sh.currentPlayer := by
  simp only [seg1Lock]
  split
  · split
    · rcases casFront_player { sh with streamLock := true } with h | h
      · exact Or.inl h
      · exact Or.inr h
    · rw [seg1Own_player]
      rcases casFront_player { sh with streamLock := true } with h | h
      · exact Or.inl h
      · exact Or.inr h
  · rw [seg1Own_player]
    exact Or.inr rfl

theorem seg1Lock_stream (sh : Shared) (c : Call) :
    (seg1Lock sh c).sh.activeStreamId = none ∨
    ((seg1Lock sh c).sh.activeStreamId = some c.sid ∧
      (seg1Lock sh c).c.pc = PC.awaitMeta) ∨
    (seg1Lock sh c).sh.activeStreamId = sh.activeStreamId := by
  simp only [seg1Lock]
  split
  · split
    · rw [show ∀ x y z, (⟨x, y, z⟩ : SegOut).sh = x from fun _ _ _ => rfl]
      rw [casFront_stream]
      exact Or.inr (Or.inr rfl)
    · rcases seg1Own_stream (casFinish (casFront { sh with streamLock := true })) c with h | ⟨h1, h2⟩
      · exact Or.inl h
      · exact Or.inr (Or.inl ⟨h1, h2⟩)
  · rcases seg1Own_stream { sh with streamLock := true } c with h | ⟨h1, h2⟩
    · exact Or.inl h
    · exact Or.inr (Or.inl ⟨h1, h2⟩)

theorem seg1Entry_player (sh : Shared) (c : Call) :
    (seg1Entry sh c).sh.currentPlayer = none ∨
    (seg1Entry sh c).sh.currentPlayer = sh.currentPlayer := by
  simp only [seg1Entry]
  split
  · exact Or.inr rfl
  · exact seg1Lock_player sh c

theorem seg1Entry_stream (sh : Shared) (c : Call) :
    (seg1Entry sh c).sh.activeStreamId = none ∨
    ((seg1Entry sh c).sh.activeStreamId = some c.sid ∧
      (seg1Entry sh c).c.pc = PC.awaitMeta) ∨
    (seg1Entry sh c).sh.activeStreamId = sh.activeStreamId := by
  simp only [seg1Entry]
  split
  · exact Or.inr (Or.inr rfl)
  · exact seg1Lock_stream sh c

theorem claimAndSeg1_player (sh : Shared) (c : Call) :
    (claimAndSeg1 sh c).sh.currentPlayer = none ∨
    (claimAndSeg1 sh c).sh.currentPlayer = sh.currentPlayer := by
  simp only [claimAndSeg1]
  exact seg1Entry_player _ c

theorem claimAndSeg1_stream (sh : Shared) (c : Call) :
    (claimAndSeg1 sh c).sh.activeStreamId = none ∨
    ((claimAndSeg1 sh c).sh.activeStreamId = some c.sid ∧
      (claimAndSeg1 sh c).c.pc = PC.awaitMeta) ∨
    (claimAndSeg1 sh c).sh.activeStreamId = sh.activeStreamId := by
  simp only [claimAndSeg1]
  exact seg1Entry_stream _ c

theorem segStart_player (sh : Shared) (c : Call) :
    (segStart sh c).sh.currentPlayer = none ∨
    (segStart sh c).sh.currentPlayer = sh.currentPlayer := by
  simp only [segStart]
  repeat' split
  all_goals first
    | exact Or.inl rfl
    | exact Or.inr rfl
    | exact claimAndSeg1_player sh c
    | (rcases casFront_player (cancelCurrentPlayback sh) with h | h
       · exact Or.inl h
       · exact Or.inl h)
    | (rcases casFront_player sh with h | h
       · exact Or.inl h
       · exact Or.inr h)

theorem segStart_stream (sh : Shared) (c : Call) :
    (segStart sh c).sh.activeStreamId = none ∨
    ((segStart sh c).sh.activeStreamId = some c.sid ∧
      (segStart sh c).c.pc = PC.awaitMeta) ∨
    (segStart sh c).sh.activeStreamId = sh.activeStreamId := by
  simp only [segStart]
  repeat' split
  all_goals first
    | exact Or.inl rfl
    | exact Or.inr (Or.inr rfl)
    | exact claimAndSeg1_stream sh c
    | exact Or.inr (Or.inr ((casFront_stream (cancelCurrentPlayback sh)).trans rfl))
    | exact Or.inr (Or.inr (casFront_stream sh))

theorem segCasRace_player (k : CasCont) (sh : Shared) (c : Call) :
    (segCasRace k sh c).sh.currentPlayer = none ∨
    (segCasRace k sh c).sh.currentPlayer = sh.currentPlayer := by
  cases k
  · exact Or.inr rfl
  · exact seg1Lock_player (casFinish sh) c
  · exact Or.inr (seg1Own_player (casFinish sh) c)

theorem segCasRace_stream (k : CasCont) (sh : Shared) (c : Call) :
    (segCasRace k sh c).sh.activeStreamId = none ∨
    ((segCasRace k sh c).sh.activeStreamId = some c.sid ∧
      (segCasRace k sh c).c.pc = PC.awaitMeta) := by
  cases k
  · exact Or.inl rfl
  · rcases seg1Lock_stream (casFinish sh) c with h | h | h
    · exact Or.inl h
    · exact Or.inr h
    · exact Or.inl h
  · rcases seg1Own_stream (casFinish sh) c with h | h
    · exact Or.inl h
    · exact Or.inr h

theorem segLockWait_player (sh : Shared) (c : Call) :
    (segLockWait sh c).sh.currentPlayer = none ∨
    (segLockWait sh c).sh.currentPlayer = sh.currentPlayer := by
  simp only [segLockWait]
  repeat' split
  all_goals first
    | exact seg1Lock_player sh c
    | exact casFront_player sh
    | (rcases seg1Lock_player (casFinish (casFront sh)) c with h | h
       · exact Or.inl h
       · rcases casFront_player sh with h2 | h2
         · exact Or.inl (h.trans h2)
         · exact Or.inr (h.trans h2))

theorem segLockWait_stream (sh : Shared) (c : Call) :
    (segLockWait sh c).sh.activeStreamId = none ∨
    ((segLockWait sh c).sh.activeStreamId = some c.sid ∧
      (segLockWait sh c).c.pc = PC.awaitMeta) ∨
    (segLockWait sh c).sh.activeStreamId = sh.activeStreamId := by
  simp only [segLockWait]
  repeat' split
  all_goals first
    | exact seg1Lock_stream sh c
    | exact Or.inr (Or.inr (casFront_stream sh))
    | (rcases seg1Lock_stream (casFinish (casFront sh)) c with h | h | h
       · exact Or.inl h
       · exact Or.inr (Or.inl h)
       · exact Or.inl h)

set_option maxHeartbeats 1600000 in
theorem segDispatch_c_sid (sh : Shared) (c : Call) :
    (segDispatch sh c).c.sid = c.sid := by
  rcases c with ⟨rid, sid, pid, text, wp, pp, pc, err, wa, tc, res⟩
  cases pc <;>
    simp only [segDispatch, segStart, segCasRace, segSettleDelay, segLockWait,
      segAwaitMeta, segAwaitWrite, segAwaitClose, segPostPlay, segIifeDone,
      segStaticDone, claimAndSeg1, seg1Entry, seg1Lock, seg1Own] <;>
    (repeat' split) <;> rfl

set_option maxHeartbeats 1600000 in
theorem segDispatch_c_pid (sh : Shared) (c : Call) :
    (segDispatch sh c).c.pid = c.pid := by
  rcases c with ⟨rid, sid, pid, text, wp, pp, pc, err, wa, tc, res⟩
  cases pc <;>
    simp only [segDispatch, segStart, segCasRace, segSettleDelay, segLockWait,
      segAwaitMeta, segAwaitWrite, segAwaitClose, segPostPlay, segIifeDone,
      segStaticDone, claimAndSeg1, seg1Entry, seg1Lock, seg1Own] <;>
    (repeat' split) <;> rfl

theorem not_inFlight_start : ¬ inFlight PC.start := by simp [inFlight]

theorem not_inFlight_casRace (k : CasCont) : ¬ inFlight (PC.casRace k) := by simp [inFlight]

theorem not_inFlight_settleDelay : ¬ inFlight PC.settleDelay := by simp [inFlight]

theorem not_inFlight_lockWait : ¬ inFlight PC.lockWait := by simp [inFlight]

theorem not_inFlight_staticDone : ¬ inFlight PC.staticDone := by simp [inFlight]

theorem not_inFlight_done : ¬ inFlight PC.done := by simp [inFlight]

theorem segAwaitClose_sh (sh : Shared) (c : Call) :
    (segAwaitClose sh c).sh =
      if sh.currentPlayer = some c.pid then
        { sh with isPlaying := false, currentPlayer := none, currentTempFile := "" }
      else sh := by
  simp only [segAwaitClose]
  split <;> rfl

theorem segDispatch_player (sh : Shared) (c : Call) :
    (segDispatch sh c).sh.currentPlayer = none ∨
    ((segDispatch sh c).sh.currentPlayer = some c.pid ∧
      (segDispatch sh c).c.pc = PC.awaitClose) ∨
    ((segDispatch sh c).sh.currentPlayer = sh.currentPlayer ∧
      (c.pc = PC.awaitClose → sh.currentPlayer ≠ some c.pid)) := by
  cases hpc : c.pc
  case start =>
    simp only [segDispatch, hpc]
    rcases segStart_player sh c with h | h
    · exact Or.inl h
    · exact Or.inr (Or.inr ⟨h, fun hac => PC.noConfusion hac⟩)
  case casRace k =>
    simp only [segDispatch, hpc]
    rcases segCasRace_player k sh c with h | h
    · exact Or.inl h
    · exact Or.inr (Or.inr ⟨h, fun hac => PC.noConfusion hac⟩)
  case settleDelay =>
    simp only [segDispatch, hpc]
    rcases claimAndSeg1_player sh c with h | h
    · exact Or.inl h
    · exact Or.inr (Or.inr ⟨h, fun hac => PC.noConfusion hac⟩)
  case lockWait =>
    simp only [segDispatch, hpc]
    rcases segLockWait_player sh c with h | h
    · exact Or.inl h
    · exact Or.inr (Or.inr ⟨h, fun hac => PC.noConfusion hac⟩)
  case awaitMeta =>
    simp only [segDispatch, hpc, segAwaitMeta]
    repeat' split
    all_goals first
      | exact Or.inr (Or.inr ⟨nFinally_player c.sid sh, fun hac => PC.noConfusion hac⟩)
      | exact Or.inr (Or.inr ⟨rfl, fun hac => PC.noConfusion hac⟩)
  case awaitWrite =>
    simp only [segDispatch, hpc, segAwaitWrite]
    repeat' split
    all_goals first
      | exact Or.inr (Or.inl ⟨rfl, rfl⟩)
      | exact Or.inr (Or.inr ⟨rfl, fun hac => PC.noConfusion hac⟩)
  case awaitClose =>
    simp only [segDispatch, hpc]
    by_cases hp : sh.currentPlayer = some c.pid
    · refine Or.inl ?_
      rw [segAwaitClose_sh, if_pos hp]
    · refine Or.inr (Or.inr ⟨?_, fun _ => hp⟩)
      rw [segAwaitClose_sh, if_neg hp]
  case postPlay =>
    simp only [segDispatch, hpc]
    exact Or.inr (Or.inr ⟨rfl, fun hac => PC.noConfusion hac⟩)
  case iifeDone =>
    simp only [segDispatch, hpc]
    exact Or.inr (Or.inr ⟨nFinally_player c.sid sh, fun hac => PC.noConfusion hac⟩)
  case staticDone =>
    simp only [segDispatch, hpc]
    exact Or.inr (Or.inr ⟨staticFinally_player c.rid sh, fun hac => PC.noConfusion hac⟩)
  case done =>
    simp only [segDispatch, hpc]
    exact Or.inr (Or.inr ⟨trivial, fun hac => PC.noConfusion hac⟩)

theorem segDispatch_stream (sh : Shared) (c : Call) :
    (segDispatch sh c).sh.activeStreamId = none ∨
    ((segDispatch sh c).sh.activeStreamId = some c.sid ∧
      inFlight (segDispatch sh c).c.pc) ∨
    ((segDispatch sh c).sh.activeStreamId = sh.activeStreamId ∧
      (sh.activeStreamId = some c.sid ∧ inFlight c.pc →
        inFlight (segDispatch sh c).c.pc)) := by
  cases hpc : c.pc
  case start =>
    simp only [segDispatch, hpc]
    rcases segStart_stream sh c with h | ⟨h1, h2⟩ | h
    · exact Or.inl h
    · exact Or.inr (Or.inl ⟨h1, Or.inl h2⟩)
    · exact Or.inr (Or.inr ⟨h, fun hc => absurd hc.2 not_inFlight_start⟩)
  case casRace k =>
    simp only [segDispatch, hpc]
    rcases segCasRace_stream k sh c with h | ⟨h1, h2⟩
    · exact Or.inl h
    · exact Or.inr (Or.inl ⟨h1, Or.inl h2⟩)
  case settleDelay =>
    simp only [segDispatch, hpc]
    rcases claimAndSeg1_stream sh c with h | ⟨h1, h2⟩ | h
    · exact Or.inl h
    · exact Or.inr (Or.inl ⟨h1, Or.inl h2⟩)
    · exact Or.inr (Or.inr ⟨h, fun hc => absurd hc.2 not_inFlight_settleDelay⟩)
  case lockWait =>
    simp only [segDispatch, hpc]
    rcases segLockWait_stream sh c with h | ⟨h1, h2⟩ | h
    · exact Or.inl h
    · exact Or.inr (Or.inl ⟨h1, Or.inl h2⟩)
    · exact Or.inr (Or.inr ⟨h, fun hc => absurd hc.2 not_inFlight_lockWait⟩)
  case awaitMeta =>
    simp only [segDispatch, hpc, segAwaitMeta]
    repeat' split
    all_goals first
      | (rcases nFinally_stream c.sid sh with h | ⟨h, hne⟩
         · exact Or.inl h
         · exact Or.inr (Or.inr ⟨h, fun hc => absurd hc.1 hne⟩))
      | exact Or.inr (Or.inr ⟨rfl, fun _ => Or.inr (Or.inr (Or.inr (Or.inr rfl)))⟩)
      | exact Or.inr (Or.inr ⟨rfl, fun _ => Or.inr (Or.inl rfl)⟩)
  case awaitWrite =>
    simp only [segDispatch, hpc, segAwaitWrite]
    repeat' split
    all_goals first
      | exact Or.inr (Or.inr ⟨rfl, fun _ => Or.inr (Or.inr (Or.inr (Or.inr rfl)))⟩)
      | exact Or.inr (Or.inr ⟨rfl, fun _ => Or.inr (Or.inr (Or.inl rfl))⟩)
  case awaitClose =>
    simp only [segDispatch, hpc, segAwaitClose]
    repeat' split
    all_goals exact Or.inr (Or.inr ⟨rfl, fun _ => Or.inr (Or.inr (Or.inr (Or.inl rfl)))⟩)
  case postPlay =>
    simp only [segDispatch, hpc]
    exact Or.inr (Or.inr ⟨rfl, fun _ => Or.inr (Or.inr (Or.inr (Or.inr rfl)))⟩)
  case iifeDone =>
    simp only [segDispatch, hpc, segIifeDone]
    rcases nFinally_stream c.sid sh with h | ⟨h, hne⟩
    · exact Or.inl h
    · exact Or.inr (Or.inr ⟨h, fun hc => absurd hc.1 hne⟩)
  case staticDone =>
    simp only [segDispatch, hpc]
    exact Or.inr (Or.inr ⟨staticFinally_stream c.rid sh,
      fun hc => absurd hc.2 not_inFlight_staticDone⟩)
  case done =>
    simp only [segDispatch, hpc]
    exact Or.inr (Or.inr ⟨trivial, fun hc => absurd hc.2 not_inFlight_done⟩)

theorem player_none_of_isSome_false (sh : Shared)
    (h : sh.currentPlayer.isSome = false) : sh.currentPlayer = none := by
  cases hcp : sh.currentPlayer
  · rfl
  · rw [hcp] at h
    exact Bool.noConfusion h

theorem segStart_player_none (sh : Shared) (c : Call) :
    (segStart sh c).sh.currentPlayer = none := by
  by_cases hcp : sh.currentPlayer.isSome = true
  · simp [segStart, hcp]
    repeat' split
    all_goals first
      | rfl
      | (rcases casFront_player (cancelCurrentPlayback sh) with h2 | h2 <;> exact h2)
  · have hn : sh.currentPlayer = none :=
      player_none_of_isSome_false sh (Bool.eq_false_iff.mpr hcp)
    rcases segStart_player sh c with h | h
    · exact h
    · rw [h, hn]

theorem segStart_abort (sh : Shared) (c u : Call)
    (h1 : sh.activeStreamId ≠ none) (h2 : sh.activeStreamId ≠ some c.rid)
    (h3 : sh.abortCtrl = some u.sid) (h4 : u.pc = PC.awaitWrite) :
    ((segStart sh c).eff u).writeAborted = true := by
  have hs : sh.activeStreamId.isSome = true := Option.ne_none_iff_isSome.mp h1
  have hA : (sh.activeStreamId.isSome && decide (sh.activeStreamId ≠ some c.rid)) = true := by
    rw [hs, decide_eq_true h2]
    rfl
  have hcondA : (decide ((cancelCurrentPlayback sh).abortCtrl = some u.sid) &&
      decide (u.pc = PC.awaitWrite)) = true := by
    rw [Bool.and_eq_true]
    exact ⟨decide_eq_true h3, decide_eq_true h4⟩
  have hcondB : (decide (sh.abortCtrl = some u.sid) &&
      decide (u.pc = PC.awaitWrite)) = true := by
    rw [Bool.and_eq_true]
    exact ⟨decide_eq_true h3, decide_eq_true h4⟩
  simp only [segStart]
  rw [hA]
  simp only [Bool.or_true, Bool.true_or, if_true]
  repeat' split
  all_goals first
    | (rename_i hearly
       rw [Bool.and_eq_true] at hearly
       exact absurd (of_decide_eq_true hearly.1) h1)
    | (simp only [casVictim]
       rw [if_pos hcondA]
       split <;> rfl)
    | (simp only [casVictim]
       rw [if_pos hcondB]
       split <;> rfl)

theorem Inv_step (cfg : Config) (i : Nat)
    (hp : PlayerInv cfg) (hs : StreamInv cfg) :
    PlayerInv (step cfg i) ∧ StreamInv (step cfg i) := by
  rcases hi : cfg.calls[i]? with _ | c
  · have hstep : step cfg i = cfg := by simp [step, hi]
    rw [hstep]
    exact ⟨hp, hs⟩
  · by_cases hdone : c.pc = PC.done
    · have hstep : step cfg i = cfg := by simp [step, hi, hdone]
      rw [hstep]
      exact ⟨hp, hs⟩
    · have hlen : i < cfg.calls.length := (List.getElem?_eq_some_iff.mp hi).1
      have hstep : step cfg i =
          ⟨(segDispatch cfg.sh c).sh,
           (cfg.calls.map (segDispatch cfg.sh c).eff).set i (segDispatch cfg.sh c).c⟩ := by
        simp [step, hi, hdone]
      rw [hstep]
      constructor
      · intro p hpl
        dsimp only at hpl ⊢
        rcases segDispatch_player cfg.sh c with h | ⟨h1, h2⟩ | ⟨h1, h2⟩
        · rw [h] at hpl
          exact Option.noConfusion hpl
        · rw [h1] at hpl
          injection hpl with hpid
          refine ⟨i, (segDispatch cfg.sh c).c, ?_, ?_, h2⟩
          · simp [List.getElem?_set_self, hlen]
          · rw [segDispatch_c_pid]
            exact hpid
        · rw [h1] at hpl
          obtain ⟨j, cj, hj, hjp, hjpc⟩ := hp p hpl
          by_cases hij : j = i
          · subst hij
            rw [hi] at hj
            injection hj with hcc
            subst hcc
            rw [← hjp] at hpl
            exact absurd hpl (h2 hjpc)
          · refine ⟨j, (segDispatch cfg.sh c).eff cj, ?_, ?_, ?_⟩
            · rw [List.getElem?_set_ne (fun h => hij h.symm)]
              rw [List.getElem?_map, hj]
              rfl
            · rw [segDispatch_eff_pid]
              exact hjp
            · rw [segDispatch_eff_pc]
              exact hjpc
      · intro s hst
        dsimp only at hst ⊢
        rcases segDispatch_stream cfg.sh c with h | ⟨h1, h2⟩ | ⟨h1, h2⟩
        · rw [h] at hst
          exact Option.noConfusion hst
        · rw [h1] at hst
          injection hst with hsid
          refine ⟨i, (segDispatch cfg.sh c).c, ?_, ?_, h2⟩
          · simp [List.getElem?_set_self, hlen]
          · rw [segDispatch_c_sid]
            exact hsid
        · rw [h1] at hst
          obtain ⟨j, cj, hj, hjs, hjf⟩ := hs s hst
          by_cases hij : j = i
          · subst hij
            rw [hi] at hj
            injection hj with hcc
            subst hcc
            have hin : inFlight (segDispatch cfg.sh c).c.pc := by
              refine h2 ⟨?_, hjf⟩
              rw [hjs]
              exact hst
            refine ⟨j, (segDispatch cfg.sh c).c, ?_, ?_, hin⟩
            · simp [List.getElem?_set_self, hlen]
            · rw [segDispatch_c_sid]
              exact hjs
          · refine ⟨j, (segDispatch cfg.sh c).eff cj, ?_, ?_, ?_⟩
            · rw [List.getElem?_set_ne (fun h => hij h.symm)]
              rw [List.getElem?_map, hj]
              rfl
            · rw [segDispatch_eff_sid]
              exact hjs
            · rw [segDispatch_eff_pc]
              exact hjf

theorem Inv_init (cs : List Call) :
    PlayerInv (initConfig cs) ∧ StreamInv (initConfig cs) := by
  constructor
  · intro p hpl
    exact Option.noConfusion hpl
  · intro s hst
    exact Option.noConfusion hst

theorem Inv_run (cfg : Config) (sched : List Nat)
    (hp : PlayerInv cfg) (hs : StreamInv cfg) :
    PlayerInv (runTTS cfg sched) ∧ StreamInv (runTTS cfg sched) := by
  induction sched generalizing cfg with
  | nil => exact ⟨hp, hs⟩
  | cons i rest ih =>
    obtain ⟨hp', hs'⟩ := Inv_step cfg i hp hs
    exact ih (step cfg i) hp' hs'

/-- C1: single-flight invariant of the static `speak` machinery.
(1) Over every schedule from an initial machine, the shared handles are
single: whenever `currentPlayer` is registered it belongs to a call that
is awaiting its player's close event, and whenever `activeStreamId` is
registered it belongs to a call inside the stream pipeline — the
`Option`-typed shared fields make "at most one player process handle and
at most one active stream id" structural, and the invariants identify
the surviving owner.  (2) If every call of the sequence has finished,
no player and no stream survive.  (3) A call entering its prelude
(`segStart`) always leaves the shared player terminated
(`currentPlayer = none`).  (4) If a foreign stream is registered when a
new call starts, the prelude's `cancelActiveStream` aborts the pending
write of the call that owns that stream. -/
theorem claim1_single_flight :
    (∀ (cs : List Call) (sched : List Nat),
      PlayerInv (runTTS (initConfig cs) sched) ∧
      StreamInv (runTTS (initConfig cs) sched)) ∧
    (∀ (cs : List Call) (sched : List Nat),
      (∀ c ∈ (runTTS (initConfig cs) sched).calls, c.pc = PC.done) →
      (runTTS (initConfig cs) sched).sh.currentPlayer = none ∧
      (runTTS (initConfig cs) sched).sh.activeStreamId = none) ∧
    (∀ (sh : Shared) (c : Call), (segStart sh c).sh.currentPlayer = none) ∧
    (∀ (sh : Shared) (c u : Call),
      sh.activeStreamId ≠ none → sh.activeStreamId ≠ some c.rid →
      sh.abortCtrl = some u.sid → u.pc = PC.awaitWrite →
      ((segStart sh c).eff u).writeAborted = true) := by
  refine ⟨?_, ?_, segStart_player_none, segStart_abort⟩
  · intro cs sched
    exact Inv_run (initConfig cs) sched (Inv_init cs).1 (Inv_init cs).2
  · intro cs sched hall
    obtain ⟨hp, hs⟩ := Inv_run (initConfig cs) sched (Inv_init cs).1 (Inv_init cs).2
    constructor
    · rcases hpl : (runTTS (initConfig cs) sched).sh.currentPlayer with _ | p
      · rfl
      · obtain ⟨j, cj, hj, _, hjpc⟩ := hp p hpl
        have hdone := hall cj (List.getElem?_mem hj)
        rw [hdone] at hjpc
        exact PC.noConfusion hjpc
    · rcases hst : (runTTS (initConfig cs) sched).sh.activeStreamId with _ | s
      · rfl
      · obtain ⟨j, cj, hj, _, hjf⟩ := hs s hst
        have hdone := hall cj (List.getElem?_mem hj)
        rw [hdone] at hjf
        exact absurd hjf not_inFlight_done

set_option maxHeartbeats 2000000 in
/-- Witness for C1 at concrete inputs: a single call driven to
completion leaves no player and no stream; a fresh prelude from an
idle state leaves the player cleared; a prelude over a foreign stream
(id 99) aborts the pending write of the call that owns it. -/
theorem claim1_single_flight_witness :
    ((runTTS (initConfig [mkCall 1 11 21 "hi" none none])
        [0, 0, 0, 0, 0, 0, 0, 0]).sh.currentPlayer = none ∧
      (runTTS (initConfig [mkCall 1 11 21 "hi" none none])
        [0, 0, 0, 0, 0, 0, 0, 0]).sh.activeStreamId = none) ∧
    (segStart {} (mkCall 1 11 21 "hi" none none)).sh.currentPlayer = none ∧
    ((segStart { activeStreamId := some 99, abortCtrl := some 99 }
        (mkCall 1 11 21 "hi" none none)).eff
      { mkCall 2 99 22 "yo" none none with pc := PC.awaitWrite }).writeAborted = true := by
  refine ⟨claim1_single_flight.2.1 _ _ (by decide),
    claim1_single_flight.2.2.1 {} (mkCall 1 11 21 "hi" none none),
    claim1_single_flight.2.2.2 _ _ _ (by decide) (by decide) rfl rfl⟩
